import Mathlib

/-!
Shallow embedding of `skyrim_save_archiver.py`.

Byte streams are modelled as `List Nat` (each element intended `< 256`); a
Python file object's cursor is modelled by returning the unconsumed suffix of
the list alongside each read result, and a Python `f.read(n)` (which returns
at most `n` bytes, without error) is `List.take n` / `List.drop n`.

The two external compression libraries are not code of this repository:
* `lz4.block.compress` / `lz4.block.decompress` (used by the save-record
  codec) are passed in as parameters `compress : List Nat → List Nat` and
  `d : List Nat → Nat → Option (List Nat)` (the `Nat` is the
  `uncompressed_size` argument; `none` models the library raising).
* the zstd whole-stream envelope wrapped around the archive by
  `compress_files` / `decompress_files` is treated as a transparent byte
  channel: the model works directly on the decompressed logical stream,
  which is the layer all the spec's archive-format statements are about.

Python exceptions are modelled with `Except` / explicit error codes; the
distinct `raise` sites of the source are mapped to distinct error values.
-/

/-- Little-endian value of a byte list, as `struct.unpack` of the whole list. -/
def bytesToNatLE : List Nat → Nat
  | [] => 0
  | b :: rest => b + 256 * bytesToNatLE rest

/-- Little-endian encoding of `v` on exactly `n` bytes, as `struct.pack`. -/
def natToLE : Nat → Nat → List Nat
  | 0, _ => []
  | n + 1, v => v % 256 :: natToLE n (v / 256)

/-- All elements are genuine byte values. -/
def ByteOk (l : List Nat) : Prop := ∀ x ∈ l, x < 256

instance (l : List Nat) : Decidable (ByteOk l) := List.decidableBAll _ l

/-- `read_uintN` family: Python `f.read(n)` followed by the length check and
`struct.unpack`; `none` models the `Not enough data` exception. -/
def rdUInt (n : Nat) (s : List Nat) : Option (Nat × List Nat) :=
  if n ≤ s.length then some (bytesToNatLE (s.take n), s.drop n) else none

def read_uint64 (s : List Nat) : Option (Nat × List Nat) := rdUInt 8 s

def read_uint32 (s : List Nat) : Option (Nat × List Nat) := rdUInt 4 s

def read_uint16 (s : List Nat) : Option (Nat × List Nat) := rdUInt 2 s

def read_uint8 (s : List Nat) : Option (Nat × List Nat) := rdUInt 1 s

/-- `read_wstring`: u16 length prefix, then exactly that many bytes. -/
def read_wstring (s : List Nat) : Option (List Nat × List Nat) :=
  match read_uint16 s with
  | none => none
  | some (size, s1) =>
      if size ≤ s1.length then some (s1.take size, s1.drop size) else none

/-- `struct.pack('<…', v)` raises when the value is out of range. -/
def pkUInt (n v : Nat) : Option (List Nat) :=
  if v < 256 ^ n then some (natToLE n v) else none

def pack_uint64 (v : Nat) : Option (List Nat) := pkUInt 8 v

def pack_uint32 (v : Nat) : Option (List Nat) := pkUInt 4 v

def pack_uint16 (v : Nat) : Option (List Nat) := pkUInt 2 v

def pack_uint8 (v : Nat) : Option (List Nat) := pkUInt 1 v

/-- `pack_wstring`: fails when the payload exceeds 65535 bytes. -/
def pack_wstring (v : List Nat) : Option (List Nat) :=
  if v.length > 2 ^ 16 - 1 then none else some (natToLE 2 v.length ++ v)

/-- `windows_filetime_to_unix_second`: Python `//` is `Int.fdiv`. -/
def windows_filetime_to_unix_second (ft : Int) : Int :=
  (ft - 116444736000000000).fdiv ((10 : Int) ^ 9 / 100)

/-- The 13 bytes of `b'TESV_SAVEGAME'`. -/
def MAGIC : List Nat := [84, 69, 83, 86, 95, 83, 65, 86, 69, 71, 65, 77, 69]

/-- The distinct `raise` sites of `ESS.__init__`. -/
inductive ESSError where
  | invalidMagic : ESSError
  | truncated : ESSError
  | unsupportedVersion : Nat → ESSError
  | invalidCompression : Nat → ESSError
  | decompressFailed : ESSError
  | sizeMismatch : ESSError
deriving DecidableEq, Repr

/-- The fields `ESS.__init__` assigns on `self`.  `uncompressedLen` and
`compressedLen` are only assigned on the COMPRESSED path, hence `Option`. -/
structure ESS where
  headerSize : Nat
  version : Nat
  saveNumber : Nat
  playerName : List Nat
  playerLevel : Nat
  playerLocation : List Nat
  gameDate : List Nat
  playerRaceEditorId : List Nat
  playerSex : Nat
  playerCurExp : List Nat
  playerLvlUpExp : List Nat
  filetime : Nat
  shotWidth : Nat
  shotHeight : Nat
  compressionType : Nat
  screenshotData : List Nat
  uncompressedBlob : List Nat
  uncompressedLen : Option Nat
  compressedLen : Option Nat
deriving DecidableEq, Repr

/-- `ESS.__init__` on a byte buffer.  `d` stands for `lz4.block.decompress`
(arguments: remaining bytes, declared `uncompressed_size`).  Note the raw
`f.read(4)` for the two exp blobs and the raw `f.read(4*w*h)` for the
screenshot perform no length check, exactly as in the source. -/
def ESS.decode (d : List Nat → Nat → Option (List Nat)) (input : List Nat) :
    Except ESSError ESS :=
  if input.take 13 ≠ MAGIC then .error .invalidMagic else
  match read_uint32 (input.drop 13) with
  | none => .error .truncated
  | some (headerSize, s1) =>
  match read_uint32 s1 with
  | none => .error .truncated
  | some (version, s2) =>
  if version ≠ 12 then .error (.unsupportedVersion version) else
  match read_uint32 s2 with
  | none => .error .truncated
  | some (saveNumber, s3) =>
  match read_wstring s3 with
  | none => .error .truncated
  | some (playerName, s4) =>
  match read_uint32 s4 with
  | none => .error .truncated
  | some (playerLevel, s5) =>
  match read_wstring s5 with
  | none => .error .truncated
  | some (playerLocation, s6) =>
  match read_wstring s6 with
  | none => .error .truncated
  | some (gameDate, s7) =>
  match read_wstring s7 with
  | none => .error .truncated
  | some (playerRaceEditorId, s8) =>
  match read_uint16 s8 with
  | none => .error .truncated
  | some (playerSex, s9) =>
  match read_uint64 ((s9.drop 4).drop 4) with
  | none => .error .truncated
  | some (filetime, s12) =>
  match read_uint32 s12 with
  | none => .error .truncated
  | some (shotWidth, s13) =>
  match read_uint32 s13 with
  | none => .error .truncated
  | some (shotHeight, s14) =>
  match read_uint16 s14 with
  | none => .error .truncated
  | some (compressionType, s15) =>
  if compressionType = 0 then
    .ok ⟨headerSize, version, saveNumber, playerName, playerLevel,
        playerLocation, gameDate, playerRaceEditorId, playerSex,
        s9.take 4, (s9.drop 4).take 4, filetime, shotWidth, shotHeight,
        compressionType, s15.take (4 * shotWidth * shotHeight),
        s15.drop (4 * shotWidth * shotHeight), none, none⟩
  else if compressionType = 2 then
    match read_uint32 (s15.drop (4 * shotWidth * shotHeight)) with
    | none => .error .truncated
    | some (uncompressedLen, s17) =>
    match read_uint32 s17 with
    | none => .error .truncated
    | some (compressedLen, s18) =>
    match d s18 uncompressedLen with
    | none => .error .decompressFailed
    | some blob =>
      if blob.length ≠ uncompressedLen then .error .sizeMismatch
      else
        .ok ⟨headerSize, version, saveNumber, playerName, playerLevel,
            playerLocation, gameDate, playerRaceEditorId, playerSex,
            s9.take 4, (s9.drop 4).take 4, filetime, shotWidth, shotHeight,
            compressionType, s15.take (4 * shotWidth * shotHeight), blob,
            some uncompressedLen, some compressedLen⟩
  else .error (.invalidCompression compressionType)

/-- The source's `chunks` list / `b''.join(chunks)` idiom: every fallible
chunk must succeed, and the results are concatenated in order. -/
def joinChunks : List (Option (List Nat)) → Option (List Nat)
  | [] => some []
  | c :: rest =>
      match c with
      | none => none
      | some b =>
          match joinChunks rest with
          | none => none
          | some bs => some (b ++ bs)

/-- `ESS.get_uncompressed`: re-serialize with compression tag 0 and no size
fields; `none` models a `struct.pack` / `pack_wstring` exception. -/
def ESS.get_uncompressed (r : ESS) : Option (List Nat) :=
  joinChunks
    [some MAGIC,
     pack_uint32 r.headerSize,
     pack_uint32 r.version,
     pack_uint32 r.saveNumber,
     pack_wstring r.playerName,
     pack_uint32 r.playerLevel,
     pack_wstring r.playerLocation,
     pack_wstring r.gameDate,
     pack_wstring r.playerRaceEditorId,
     pack_uint16 r.playerSex,
     some r.playerCurExp,
     some r.playerLvlUpExp,
     pack_uint64 r.filetime,
     pack_uint32 r.shotWidth,
     pack_uint32 r.shotHeight,
     pack_uint16 0,
     some r.screenshotData,
     some r.uncompressedBlob]

/-- `ESS.get_compressed`: re-serialize with compression tag 2, freshly
computed size fields, and a freshly compressed payload.  `compress` stands
for `lz4.block.compress(…, store_size=False)`. -/
def ESS.get_compressed (compress : List Nat → List Nat) (r : ESS) :
    Option (List Nat) :=
  joinChunks
    [some MAGIC,
     pack_uint32 r.headerSize,
     pack_uint32 r.version,
     pack_uint32 r.saveNumber,
     pack_wstring r.playerName,
     pack_uint32 r.playerLevel,
     pack_wstring r.playerLocation,
     pack_wstring r.gameDate,
     pack_wstring r.playerRaceEditorId,
     pack_uint16 r.playerSex,
     some r.playerCurExp,
     some r.playerLvlUpExp,
     pack_uint64 r.filetime,
     pack_uint32 r.shotWidth,
     pack_uint32 r.shotHeight,
     pack_uint16 2,
     some r.screenshotData,
     pack_uint32 r.uncompressedBlob.length,
     pack_uint32 (compress r.uncompressedBlob).length,
     some (compress r.uncompressedBlob)]

/-- `ESS.get_filetime_as_posix_seconds`. -/
def ESS.get_filetime_as_posix_seconds (r : ESS) : Int :=
  windows_filetime_to_unix_second r.filetime

/-- `Path(name).stem`: the name up to its last dot, provided that dot is
neither the first nor the last character (CPython's `rfind` rule). -/
def stem (nm : List Nat) : List Nat :=
  match nm.reverse.findIdx? (fun b => b = 46) with
  | none => nm
  | some j =>
      let i := nm.length - 1 - j
      if 0 < i ∧ i < nm.length - 1 then nm.take i else nm

/-- One ESS entry of the archive stream, as written by `compress_files`:
decode the save file, re-serialize it STORED, and frame it with the
length-prefixed filename and a u32 byte count. -/
def essEntryChunk (d : List Nat → Nat → Option (List Nat))
    (p : List Nat × List Nat) : Option (List Nat) :=
  match ESS.decode d p.2 with
  | .error _ => none
  | .ok r =>
      match ESS.get_uncompressed r with
      | none => none
      | some ub => joinChunks [pack_wstring p.1, pack_uint32 ub.length, some ub]

/-- One sidecar (`.skse`) entry of the archive stream: raw file bytes framed
with the length-prefixed filename and a u32 byte count. -/
def skseEntryChunk (p : List Nat × List Nat) : Option (List Nat) :=
  joinChunks [pack_wstring p.1, pack_uint32 p.2.length, some p.2]

/-- `compress_files` at the level of the decompressed logical stream (the
zstd envelope is a transparent channel, tqdm progress is UI): u32 entry
counts, then all ESS entries, then all sidecar entries.  Files are
(filename bytes, content bytes) pairs; `none` models any exception raised
while packing. -/
def compress_files (d : List Nat → Nat → Option (List Nat))
    (ess_files skse_files : List (List Nat × List Nat)) : Option (List Nat) :=
  match pack_uint32 ess_files.length, pack_uint32 skse_files.length,
      joinChunks (ess_files.map (essEntryChunk d)),
      joinChunks (skse_files.map skseEntryChunk) with
  | some h1, some h2, some eb, some sb => some (h1 ++ h2 ++ eb ++ sb)
  | _, _, _, _ => none

/-- The state threaded through `decompress_files`: the unread part of the
decompressed stream, the output directory as an association list of
(filename, contents) in creation order, and the `stem_to_posix_timestamp`
dict (most recent binding first, as a Python dict overwrite). -/
structure RState where
  stream : List Nat
  fs : List (List Nat × List Nat)
  table : List (List Nat × Int)
deriving DecidableEq, Repr

/-- The `raise` sites reachable from `decompress_files` (a `KeyError` on the
stem table is `unresolvedReference`). -/
inductive ArcError where
  | truncated : ArcError
  | alreadyExists : ArcError
  | unresolvedReference : ArcError
  | encodeFailed : ArcError
  | decodeFailed : ESSError → ArcError
deriving DecidableEq, Repr

/-- Outcome of a restore run: on an exception the partially written
directory persists, so the error carries the state at the raise. -/
inductive RRes where
  | ok : RState → RRes
  | err : ArcError → RState → RRes
deriving DecidableEq, Repr

def RRes.state : RRes → RState
  | .ok st => st
  | .err _ st => st

/-- Membership test playing `os.path.exists` against the output directory. -/
def fsExists (fs : List (List Nat × List Nat)) (nm : List Nat) : Bool :=
  fs.any (fun p => p.1 = nm)

/-- The first `for i in range(num_ess_files)` loop of `decompress_files`:
read the name, refuse to overwrite, read the declared size, take exactly
that many bytes, decode the record, record its timestamp under the stem,
and write its `get_compressed` form.  The inner `if not exists` guard of
the source (dead after the earlier raise) is kept as in the source. -/
def decompressEssLoop (d : List Nat → Nat → Option (List Nat))
    (compress : List Nat → List Nat) : Nat → RState → RRes
  | 0, st => .ok st
  | n + 1, st =>
    match read_wstring st.stream with
    | none => .err .truncated st
    | some (name, s1) =>
      if fsExists st.fs name then .err .alreadyExists ⟨s1, st.fs, st.table⟩
      else
        match read_uint32 s1 with
        | none => .err .truncated ⟨s1, st.fs, st.table⟩
        | some (filesize, s2) =>
          let payload := s2.take filesize
          let s3 := s2.drop filesize
          match ESS.decode d payload with
          | .error e => .err (.decodeFailed e) ⟨s3, st.fs, st.table⟩
          | .ok r =>
            let ts := ESS.get_filetime_as_posix_seconds r
            let table1 := (stem name, ts) :: st.table
            if fsExists st.fs name then
              decompressEssLoop d compress n ⟨s3, st.fs, table1⟩
            else
              match ESS.get_compressed compress r with
              | none => .err .encodeFailed ⟨s3, st.fs, table1⟩
              | some enc =>
                  decompressEssLoop d compress n ⟨s3, st.fs ++ [(name, enc)], table1⟩

/-- The second `for i in range(num_skse_files)` loop of `decompress_files`:
as above but the payload is written verbatim, and the timestamp is looked
up from the stem table (after the write, as in the source, so a missing
stem leaves the file written). -/
def decompressSkseLoop : Nat → RState → RRes
  | 0, st => .ok st
  | n + 1, st =>
    match read_wstring st.stream with
    | none => .err .truncated st
    | some (name, s1) =>
      if fsExists st.fs name then .err .alreadyExists ⟨s1, st.fs, st.table⟩
      else
        match read_uint32 s1 with
        | none => .err .truncated ⟨s1, st.fs, st.table⟩
        | some (filesize, s2) =>
          if fsExists st.fs name then decompressSkseLoop n ⟨s2, st.fs, st.table⟩
          else
            let payload := s2.take filesize
            let s3 := s2.drop filesize
            let fs1 := st.fs ++ [(name, payload)]
            match st.table.lookup (stem name) with
            | none => .err .unresolvedReference ⟨s3, fs1, st.table⟩
            | some _ => decompressSkseLoop n ⟨s3, fs1, st.table⟩

/-- `decompress_files` on the decompressed logical stream, restoring into a
directory that already holds `fs0`. -/
def decompress_files (d : List Nat → Nat → Option (List Nat))
    (compress : List Nat → List Nat) (archive : List Nat)
    (fs0 : List (List Nat × List Nat)) : RRes :=
  match read_uint32 archive with
  | none => .err .truncated ⟨archive, fs0, []⟩
  | some (numEss, s1) =>
  match read_uint32 s1 with
  | none => .err .truncated ⟨s1, fs0, []⟩
  | some (numSkse, s2) =>
  match decompressEssLoop d compress numEss ⟨s2, fs0, []⟩ with
  | .err e st => .err e st
  | .ok st => decompressSkseLoop numSkse st

theorem natToLE_length (n v : Nat) : (natToLE n v).length = n := by
  induction n generalizing v with
  | zero => rfl
  | succ n ih => simp [natToLE, ih]

theorem natToLE_byteOk (n v : Nat) : ByteOk (natToLE n v) := by
  induction n generalizing v with
  | zero => intro x hx; simp [natToLE] at hx
  | succ n ih =>
      intro x hx
      simp only [natToLE, List.mem_cons] at hx
      rcases hx with h | h
      · exact h ▸ Nat.mod_lt _ (by norm_num)
      · exact ih _ _ h

theorem bytesToNatLE_natToLE (n v : Nat) :
    bytesToNatLE (natToLE n v) = v % 256 ^ n := by
  induction n generalizing v with
  | zero => simp [natToLE, bytesToNatLE, Nat.mod_one]
  | succ n ih =>
      simp only [natToLE, bytesToNatLE, ih]
      rw [Nat.pow_succ, Nat.mul_comm (256 ^ n) 256, Nat.mod_mul]

theorem bytesToNatLE_lt (l : List Nat) (h : ByteOk l) :
    bytesToNatLE l < 256 ^ l.length := by
  induction l with
  | nil => simp [bytesToNatLE]
  | cons b rest ih =>
      have hb : b < 256 := h b (by simp)
      have hr : bytesToNatLE rest < 256 ^ rest.length :=
        ih (fun x hx => h x (by simp [hx]))
      simp only [bytesToNatLE, List.length_cons, Nat.pow_succ]
      calc b + 256 * bytesToNatLE rest
          < 256 + 256 * bytesToNatLE rest := by omega
        _ ≤ 256 * 256 ^ rest.length := by
            have := Nat.succ_le_of_lt hr; nlinarith
        _ = 256 ^ rest.length * 256 := Nat.mul_comm _ _

theorem rdUInt_append (n v : Nat) (rest : List Nat) (h : v < 256 ^ n) :
    rdUInt n (natToLE n v ++ rest) = some (v, rest) := by
  unfold rdUInt
  rw [List.take_left' (natToLE_length n v), List.drop_left' (natToLE_length n v),
    bytesToNatLE_natToLE, Nat.mod_eq_of_lt h, if_pos]
  simp [natToLE_length]

theorem rdUInt_none (n : Nat) (s : List Nat) (h : s.length < n) :
    rdUInt n s = none := by
  unfold rdUInt
  rw [if_neg]; omega

theorem rdUInt_some_inv {n : Nat} {s : List Nat} {v : Nat} {s' : List Nat}
    (h : rdUInt n s = some (v, s')) :
    v = bytesToNatLE (s.take n) ∧ s' = s.drop n ∧ n ≤ s.length := by
  unfold rdUInt at h
  split at h
  · simp at h; exact ⟨h.1.symm, h.2.symm, by assumption⟩
  · simp at h

theorem read_uint32_append (v : Nat) (rest : List Nat) (h : v < 2 ^ 32) :
    read_uint32 (natToLE 4 v ++ rest) = some (v, rest) :=
  rdUInt_append 4 v rest (by norm_num at h ⊢; omega)

theorem read_uint16_append (v : Nat) (rest : List Nat) (h : v < 2 ^ 16) :
    read_uint16 (natToLE 2 v ++ rest) = some (v, rest) :=
  rdUInt_append 2 v rest (by norm_num at h ⊢; omega)

theorem read_uint64_append (v : Nat) (rest : List Nat) (h : v < 2 ^ 64) :
    read_uint64 (natToLE 8 v ++ rest) = some (v, rest) :=
  rdUInt_append 8 v rest (by norm_num at h ⊢; omega)

/-- The on-wire form of a length-prefixed byte string. -/
def wstrBytes (v : List Nat) : List Nat := natToLE 2 v.length ++ v

theorem read_wstring_append (v rest : List Nat) (h : v.length < 2 ^ 16) :
    read_wstring (wstrBytes v ++ rest) = some (v, rest) := by
  unfold wstrBytes read_wstring
  rw [List.append_assoc, read_uint16_append _ _ h]
  simp [List.take_left, List.drop_left]

theorem pack_uint16_eq (v : Nat) (h : v < 2 ^ 16) :
    pack_uint16 v = some (natToLE 2 v) := by
  unfold pack_uint16 pkUInt
  rw [if_pos]; norm_num at h ⊢; omega

theorem pack_uint32_eq (v : Nat) (h : v < 2 ^ 32) :
    pack_uint32 v = some (natToLE 4 v) := by
  unfold pack_uint32 pkUInt
  rw [if_pos]; norm_num at h ⊢; omega

theorem pack_uint64_eq (v : Nat) (h : v < 2 ^ 64) :
    pack_uint64 v = some (natToLE 8 v) := by
  unfold pack_uint64 pkUInt
  rw [if_pos]; norm_num at h ⊢; omega

theorem pack_wstring_eq (v : List Nat) (h : v.length < 2 ^ 16) :
    pack_wstring v = some (wstrBytes v) := by
  unfold pack_wstring wstrBytes
  rw [if_neg]; norm_num at h ⊢; omega

theorem pack_uint16_some_inv {v : Nat} {c : List Nat}
    (h : pack_uint16 v = some c) : v < 2 ^ 16 ∧ c = natToLE 2 v := by
  unfold pack_uint16 pkUInt at h
  split at h
  · refine ⟨by norm_num at *; omega, by simpa using h.symm⟩
  · simp at h

theorem pack_uint32_some_inv {v : Nat} {c : List Nat}
    (h : pack_uint32 v = some c) : v < 2 ^ 32 ∧ c = natToLE 4 v := by
  unfold pack_uint32 pkUInt at h
  split at h
  · refine ⟨by norm_num at *; omega, by simpa using h.symm⟩
  · simp at h

theorem pack_uint64_some_inv {v : Nat} {c : List Nat}
    (h : pack_uint64 v = some c) : v < 2 ^ 64 ∧ c = natToLE 8 v := by
  unfold pack_uint64 pkUInt at h
  split at h
  · refine ⟨by norm_num at *; omega, by simpa using h.symm⟩
  · simp at h

theorem pack_wstring_some_inv {v c : List Nat}
    (h : pack_wstring v = some c) : v.length < 2 ^ 16 ∧ c = wstrBytes v := by
  unfold pack_wstring at h
  split at h
  · simp at h
  · refine ⟨by norm_num at *; omega, by simpa [wstrBytes] using h.symm⟩

theorem joinChunks_nil : joinChunks [] = some [] := rfl

theorem joinChunks_cons_some {cs : List (Option (List Nat))} {bs : List Nat}
    (b : List Nat) (h : joinChunks cs = some bs) :
    joinChunks (some b :: cs) = some (b ++ bs) := by
  simp [joinChunks, h]

theorem joinChunks_cons_inv {c : Option (List Nat)}
    {cs : List (Option (List Nat))} {out : List Nat}
    (h : joinChunks (c :: cs) = some out) :
    ∃ b bs, c = some b ∧ joinChunks cs = some bs ∧ out = b ++ bs := by
  cases c with
  | none => simp [joinChunks] at h
  | some b =>
      cases hcs : joinChunks cs with
      | none => simp [joinChunks, hcs] at h
      | some bs =>
          simp only [joinChunks, hcs] at h
          exact ⟨b, bs, rfl, rfl, by simpa using h.symm⟩

/-- A well-formed save-record byte stream laid out field by field in the
fixed order read by `ESS.__init__`: used to express claims that speak about
"the input whose <field> is …".  `body` is everything after the
compression-type tag (screenshot bytes and payload framing). -/
def mkSaveInput (hs ver sn : Nat) (name : List Nat) (lvl : Nat)
    (loc date race : List Nat) (sex : Nat) (ce le : List Nat)
    (ft w h tag : Nat) (body : List Nat) : List Nat :=
  MAGIC ++ natToLE 4 hs ++ natToLE 4 ver ++ natToLE 4 sn ++ wstrBytes name ++
    natToLE 4 lvl ++ wstrBytes loc ++ wstrBytes date ++ wstrBytes race ++
    natToLE 2 sex ++ ce ++ le ++ natToLE 8 ft ++ natToLE 4 w ++ natToLE 4 h ++
    natToLE 2 tag ++ body

/-- The record-field bounds under which every `struct.pack` call of the
re-serializers succeeds. -/
def ESS.encBounds (r : ESS) : Prop :=
  r.headerSize < 2 ^ 32 ∧ r.version < 2 ^ 32 ∧ r.saveNumber < 2 ^ 32 ∧
  r.playerName.length < 2 ^ 16 ∧ r.playerLevel < 2 ^ 32 ∧
  r.playerLocation.length < 2 ^ 16 ∧ r.gameDate.length < 2 ^ 16 ∧
  r.playerRaceEditorId.length < 2 ^ 16 ∧ r.playerSex < 2 ^ 16 ∧
  r.filetime < 2 ^ 64 ∧ r.shotWidth < 2 ^ 32 ∧ r.shotHeight < 2 ^ 32

instance (r : ESS) : Decidable r.encBounds := by
  unfold ESS.encBounds; infer_instance

theorem ESS.get_uncompressed_eq (r : ESS) (h : r.encBounds) :
    r.get_uncompressed = some (mkSaveInput r.headerSize r.version
      r.saveNumber r.playerName r.playerLevel r.playerLocation r.gameDate
      r.playerRaceEditorId r.playerSex r.playerCurExp r.playerLvlUpExp
      r.filetime r.shotWidth r.shotHeight 0
      (r.screenshotData ++ r.uncompressedBlob)) := by
  obtain ⟨h1, h2, h3, h4, h5, h6, h7, h8, h9, h10, h11, h12⟩ := h
  unfold ESS.get_uncompressed
  rw [pack_uint32_eq _ h1, pack_uint32_eq _ h2, pack_uint32_eq _ h3,
    pack_wstring_eq _ h4, pack_uint32_eq _ h5, pack_wstring_eq _ h6,
    pack_wstring_eq _ h7, pack_wstring_eq _ h8, pack_uint16_eq _ h9,
    pack_uint64_eq _ h10, pack_uint32_eq _ h11, pack_uint32_eq _ h12,
    pack_uint16_eq 0 (by norm_num)]
  simp [joinChunks, mkSaveInput, List.append_assoc]

theorem ESS.get_compressed_eq (compress : List Nat → List Nat) (r : ESS)
    (h : r.encBounds) (hu : r.uncompressedBlob.length < 2 ^ 32)
    (hc : (compress r.uncompressedBlob).length < 2 ^ 32) :
    r.get_compressed compress = some (mkSaveInput r.headerSize r.version
      r.saveNumber r.playerName r.playerLevel r.playerLocation r.gameDate
      r.playerRaceEditorId r.playerSex r.playerCurExp r.playerLvlUpExp
      r.filetime r.shotWidth r.shotHeight 2
      (r.screenshotData ++ natToLE 4 r.uncompressedBlob.length ++
        natToLE 4 (compress r.uncompressedBlob).length ++
        compress r.uncompressedBlob)) := by
  obtain ⟨h1, h2, h3, h4, h5, h6, h7, h8, h9, h10, h11, h12⟩ := h
  unfold ESS.get_compressed
  rw [pack_uint32_eq _ h1, pack_uint32_eq _ h2, pack_uint32_eq _ h3,
    pack_wstring_eq _ h4, pack_uint32_eq _ h5, pack_wstring_eq _ h6,
    pack_wstring_eq _ h7, pack_wstring_eq _ h8, pack_uint16_eq _ h9,
    pack_uint64_eq _ h10, pack_uint32_eq _ h11, pack_uint32_eq _ h12,
    pack_uint16_eq 2 (by norm_num), pack_uint32_eq _ hu, pack_uint32_eq _ hc]
  simp [joinChunks, mkSaveInput, List.append_assoc]

theorem ESS.get_uncompressed_some_inv {r : ESS} {ub : List Nat}
    (h : r.get_uncompressed = some ub) :
    r.encBounds ∧ ub = mkSaveInput r.headerSize r.version
      r.saveNumber r.playerName r.playerLevel r.playerLocation r.gameDate
      r.playerRaceEditorId r.playerSex r.playerCurExp r.playerLvlUpExp
      r.filetime r.shotWidth r.shotHeight 0
      (r.screenshotData ++ r.uncompressedBlob) := by
  unfold ESS.get_uncompressed at h
  obtain ⟨b1, c1, hb1, h1, he1⟩ := joinChunks_cons_inv h
  obtain ⟨b2, c2, hb2, h2, he2⟩ := joinChunks_cons_inv h1
  obtain ⟨b3, c3, hb3, h3, he3⟩ := joinChunks_cons_inv h2
  obtain ⟨b4, c4, hb4, h4, he4⟩ := joinChunks_cons_inv h3
  obtain ⟨b5, c5, hb5, h5, he5⟩ := joinChunks_cons_inv h4
  obtain ⟨b6, c6, hb6, h6, he6⟩ := joinChunks_cons_inv h5
  obtain ⟨b7, c7, hb7, h7, he7⟩ := joinChunks_cons_inv h6
  obtain ⟨b8, c8, hb8, h8, he8⟩ := joinChunks_cons_inv h7
  obtain ⟨b9, c9, hb9, h9, he9⟩ := joinChunks_cons_inv h8
  obtain ⟨b10, c10, hb10, h10, he10⟩ := joinChunks_cons_inv h9
  obtain ⟨b11, c11, hb11, h11, he11⟩ := joinChunks_cons_inv h10
  obtain ⟨b12, c12, hb12, h12, he12⟩ := joinChunks_cons_inv h11
  obtain ⟨b13, c13, hb13, h13, he13⟩ := joinChunks_cons_inv h12
  obtain ⟨b14, c14, hb14, h14, he14⟩ := joinChunks_cons_inv h13
  obtain ⟨b15, c15, hb15, h15, he15⟩ := joinChunks_cons_inv h14
  obtain ⟨b16, c16, hb16, h16, he16⟩ := joinChunks_cons_inv h15
  obtain ⟨b17, c17, hb17, h17, he17⟩ := joinChunks_cons_inv h16
  obtain ⟨b18, c18, hb18, h18, he18⟩ := joinChunks_cons_inv h17
  simp only [joinChunks] at h18
  injection h18 with hc18
  subst he1 he2 he3 he4 he5 he6 he7 he8 he9 he10 he11 he12 he13 he14 he15
  subst he16 he17 he18
  injection hb1 with e1
  subst e1
  injection hb11 with e11
  subst e11
  injection hb12 with e12
  subst e12
  injection hb17 with e17
  subst e17
  injection hb18 with e18
  subst e18
  obtain ⟨k2, e2⟩ := pack_uint32_some_inv hb2
  subst e2
  obtain ⟨k3, e3⟩ := pack_uint32_some_inv hb3
  subst e3
  obtain ⟨k4, e4⟩ := pack_uint32_some_inv hb4
  subst e4
  obtain ⟨k5, e5⟩ := pack_wstring_some_inv hb5
  subst e5
  obtain ⟨k6, e6⟩ := pack_uint32_some_inv hb6
  subst e6
  obtain ⟨k7, e7⟩ := pack_wstring_some_inv hb7
  subst e7
  obtain ⟨k8, e8⟩ := pack_wstring_some_inv hb8
  subst e8
  obtain ⟨k9, e9⟩ := pack_wstring_some_inv hb9
  subst e9
  obtain ⟨k10, e10⟩ := pack_uint16_some_inv hb10
  subst e10
  obtain ⟨k13, e13⟩ := pack_uint64_some_inv hb13
  subst e13
  obtain ⟨k14, e14⟩ := pack_uint32_some_inv hb14
  subst e14
  obtain ⟨k15, e15⟩ := pack_uint32_some_inv hb15
  subst e15
  obtain ⟨k16, e16⟩ := pack_uint16_some_inv hb16
  subst e16
  refine ⟨⟨k2, k3, k4, k5, k6, k7, k8, k9, k10, k13, k14, k15⟩, ?_⟩
  rw [← hc18]
  simp [mkSaveInput, wstrBytes, List.append_assoc]

theorem magic_take (rest : List Nat) : (MAGIC ++ rest).take 13 = MAGIC :=
  List.take_left' rfl

theorem magic_drop (rest : List Nat) : (MAGIC ++ rest).drop 13 = rest :=
  List.drop_left' rfl

/-- How `ESS.__init__` evaluates on a well-formed field-by-field input:
all header fields are read back, and the outcome is decided by the
compression tag together with the post-tag bytes `body`. -/
theorem ESS.decode_mk (d : List Nat → Nat → Option (List Nat))
    (hs sn lvl sex ft w h tag : Nat) (name loc date race ce le body : List Nat)
    (hhs : hs < 2 ^ 32) (hsn : sn < 2 ^ 32) (hname : name.length < 2 ^ 16)
    (hlvl : lvl < 2 ^ 32) (hloc : loc.length < 2 ^ 16)
    (hdate : date.length < 2 ^ 16) (hrace : race.length < 2 ^ 16)
    (hsex : sex < 2 ^ 16) (hce : ce.length = 4) (hle : le.length = 4)
    (hft : ft < 2 ^ 64) (hw : w < 2 ^ 32) (hh : h < 2 ^ 32)
    (htag : tag < 2 ^ 16) :
    ESS.decode d
        (mkSaveInput hs 12 sn name lvl loc date race sex ce le ft w h tag body) =
      (if tag = 0 then
        .ok ⟨hs, 12, sn, name, lvl, loc, date, race, sex, ce, le, ft, w, h, tag,
          body.take (4 * w * h), body.drop (4 * w * h), none, none⟩
      else if tag = 2 then
        match read_uint32 (body.drop (4 * w * h)) with
        | none => .error .truncated
        | some (ulen, t1) =>
          match read_uint32 t1 with
          | none => .error .truncated
          | some (clen, t2) =>
            match d t2 ulen with
            | none => .error .decompressFailed
            | some blob =>
              if blob.length ≠ ulen then .error .sizeMismatch
              else .ok ⟨hs, 12, sn, name, lvl, loc, date, race, sex, ce, le,
                ft, w, h, tag, body.take (4 * w * h), blob, some ulen,
                some clen⟩
      else .error (.invalidCompression tag)) := by
  unfold mkSaveInput ESS.decode
  simp only [List.append_assoc]
  rw [magic_take, magic_drop]
  simp only [read_uint32_append _ _ hhs,
    read_uint32_append 12 _ (by norm_num),
    read_uint32_append _ _ hsn, read_wstring_append _ _ hname,
    read_uint32_append _ _ hlvl, read_wstring_append _ _ hloc,
    read_wstring_append _ _ hdate, read_wstring_append _ _ hrace,
    read_uint16_append _ _ hsex, List.take_left' hce, List.drop_left' hce,
    List.take_left' hle, List.drop_left' hle, read_uint64_append _ _ hft,
    read_uint32_append _ _ hw, read_uint32_append _ _ hh,
    read_uint16_append _ _ htag, ne_eq, not_true_eq_false, if_false]

theorem ByteOk_take {l : List Nat} (n : Nat) (h : ByteOk l) :
    ByteOk (l.take n) := fun x hx => h x (List.take_subset n l hx)

theorem ByteOk_drop {l : List Nat} (n : Nat) (h : ByteOk l) :
    ByteOk (l.drop n) := fun x hx => h x (List.drop_subset n l hx)

theorem rdUInt_value_lt {n : Nat} {s : List Nat} {v : Nat} {s' : List Nat}
    (hb : ByteOk s) (h : rdUInt n s = some (v, s')) : v < 256 ^ n := by
  obtain ⟨hv, _, hn⟩ := rdUInt_some_inv h
  have := bytesToNatLE_lt (s.take n) (ByteOk_take n hb)
  rw [List.length_take] at this
  rw [hv]
  calc bytesToNatLE (s.take n) < 256 ^ min n s.length := this
    _ ≤ 256 ^ n := Nat.pow_le_pow_right (by norm_num) (Nat.min_le_left _ _)

theorem read_wstring_some_inv {s v s' : List Nat}
    (h : read_wstring s = some (v, s')) :
    ∃ sz, read_uint16 s = some (sz, s.drop 2) ∧ sz ≤ (s.drop 2).length ∧
      v = (s.drop 2).take sz ∧ s' = (s.drop 2).drop sz := by
  unfold read_wstring at h
  cases h16 : read_uint16 s with
  | none => rw [h16] at h; exact Option.noConfusion h
  | some p =>
      obtain ⟨sz, s1⟩ := p
      obtain ⟨_, hs1, _⟩ := rdUInt_some_inv h16
      subst hs1
      rw [h16] at h
      refine ⟨sz, rfl, ?_⟩
      repeat' split at h
      all_goals try exact Option.noConfusion h
      rename_i x0 szb s1b heqb hleb
      injection heqb with heq2
      cases heq2
      simp only [Option.some.injEq, Prod.mk.injEq] at h
      exact ⟨hleb, h.1.symm, h.2.symm⟩

/-- Structural facts holding of every record produced by a successful
decode: the version was checked to be 12, the exp blobs are exactly 4 bytes
(a shorter raw read starves the following `read_uint64`), the tag is 0 or
2, and the screenshot can come up short only on the STORED path, and then
only together with an empty payload. -/
theorem ESS.decode_ok_facts {d : List Nat → Nat → Option (List Nat)}
    {b : List Nat} {r : ESS} (h : ESS.decode d b = .ok r) :
    r.version = 12 ∧ r.playerCurExp.length = 4 ∧ r.playerLvlUpExp.length = 4 ∧
    (r.compressionType = 0 ∨ r.compressionType = 2) ∧
    r.screenshotData.length ≤ 4 * r.shotWidth * r.shotHeight ∧
    (r.compressionType = 0 →
      r.uncompressedLen = none ∧ r.compressedLen = none ∧
      (r.screenshotData.length < 4 * r.shotWidth * r.shotHeight →
        r.uncompressedBlob = [])) ∧
    (r.compressionType = 2 →
      r.screenshotData.length = 4 * r.shotWidth * r.shotHeight ∧
      r.uncompressedLen = some r.uncompressedBlob.length ∧
      ∃ c, r.compressedLen = some c) := by
  unfold ESS.decode at h
  repeat' split at h
  all_goals try exact Except.noConfusion h
  · rename_i hm xq1 hsv sA hq1 xq2 ver sB hq2 hv12 xq3 snv sC hq3 xq4 nmv sD
      hq4 xq5 lvlv sE hq5 xq6 locv sF hq6 xq7 dtv sG hq7 xq8 rcv sH hq8 xq9
      sxv s9v hq9 xq10 ftv s12v hq10 xq11 swv s13v hq11 xq12 shv s14v hq12
      xq13 tgv s15v hq13 ht0
    injection h with h
    subst h
    have hv : ver = 12 := not_not.mp hv12
    obtain ⟨-, -, hl10⟩ := rdUInt_some_inv hq10
    simp only [List.length_drop] at hl10
    refine ⟨hv, ?_, ?_, Or.inl ht0, ?_, fun _ => ⟨rfl, rfl, ?_⟩,
      fun hx => absurd (ht0.symm.trans hx) (by norm_num)⟩
    · simp only [List.length_take]; omega
    · simp only [List.length_take, List.length_drop]; omega
    · simp only [List.length_take]; omega
    · intro hss
      simp only [List.length_take] at hss
      exact List.drop_eq_nil_of_le (by omega)
  · rename_i hm xq1 hsv sA hq1 xq2 ver sB hq2 hv12 xq3 snv sC hq3 xq4 nmv sD
      hq4 xq5 lvlv sE hq5 xq6 locv sF hq6 xq7 dtv sG hq7 xq8 rcv sH hq8 xq9
      sxv s9v hq9 xq10 ftv s12v hq10 xq11 swv s13v hq11 xq12 shv s14v hq12
      xq13 tgv s15v hq13 ht0n ht2 xq14 ulv s17v hq14 xq15 clv s18v hq15 xq16
      blobv hq16 hne
    injection h with h
    subst h
    have hv : ver = 12 := not_not.mp hv12
    have hbl : blobv.length = ulv := not_not.mp hne
    obtain ⟨-, -, hl10⟩ := rdUInt_some_inv hq10
    simp only [List.length_drop] at hl10
    obtain ⟨-, -, hl14⟩ := rdUInt_some_inv hq14
    simp only [List.length_drop] at hl14
    refine ⟨hv, ?_, ?_, Or.inr ht2, ?_,
      fun hx => absurd (ht0n (hx.symm ▸ rfl)) (fun q => q),
      fun _ => ⟨?_, ?_, clv, rfl⟩⟩
    · simp only [List.length_take]; omega
    · simp only [List.length_take, List.length_drop]; omega
    · simp only [List.length_take]; omega
    · simp only [List.length_take]; omega
    · rw [hbl]

theorem rdUInt_tail_byteOk {n : Nat} {s : List Nat} {v : Nat} {s' : List Nat}
    (hb : ByteOk s) (h : rdUInt n s = some (v, s')) : ByteOk s' := by
  obtain ⟨-, e, -⟩ := rdUInt_some_inv h
  exact e ▸ ByteOk_drop n hb

theorem read_uint16_value_lt {s : List Nat} {v : Nat} {s' : List Nat}
    (hb : ByteOk s) (h : read_uint16 s = some (v, s')) : v < 2 ^ 16 := by
  have := rdUInt_value_lt hb h
  norm_num at this ⊢
  omega

theorem read_uint32_value_lt {s : List Nat} {v : Nat} {s' : List Nat}
    (hb : ByteOk s) (h : read_uint32 s = some (v, s')) : v < 2 ^ 32 := by
  have := rdUInt_value_lt hb h
  norm_num at this ⊢
  omega

theorem read_uint64_value_lt {s : List Nat} {v : Nat} {s' : List Nat}
    (hb : ByteOk s) (h : read_uint64 s = some (v, s')) : v < 2 ^ 64 := by
  have := rdUInt_value_lt hb h
  norm_num at this ⊢
  omega

theorem read_wstring_len_lt {s v s' : List Nat}
    (hb : ByteOk s) (h : read_wstring s = some (v, s')) : v.length < 2 ^ 16 := by
  obtain ⟨sz, h16, hle, hv, -⟩ := read_wstring_some_inv h
  have hsz : sz < 2 ^ 16 := read_uint16_value_lt hb h16
  subst hv
  simp only [List.length_take]
  omega

theorem read_wstring_tail_byteOk {s v s' : List Nat}
    (hb : ByteOk s) (h : read_wstring s = some (v, s')) : ByteOk s' := by
  obtain ⟨sz, -, -, -, hs⟩ := read_wstring_some_inv h
  exact hs ▸ ByteOk_drop sz (ByteOk_drop 2 hb)

/-- A successful decode of a genuine byte buffer yields a record all of
whose scalar fields fit their wire widths, so it can be re-serialized. -/
theorem ESS.decode_ok_encBounds {d : List Nat → Nat → Option (List Nat)}
    {b : List Nat} {r : ESS} (hb : ByteOk b) (h : ESS.decode d b = .ok r) :
    r.encBounds := by
  unfold ESS.decode at h
  repeat' split at h
  all_goals try exact Except.noConfusion h
  · rename_i hm xq1 hsv sA hq1 xq2 ver sB hq2 hv12 xq3 snv sC hq3 xq4 nmv sD
      hq4 xq5 lvlv sE hq5 xq6 locv sF hq6 xq7 dtv sG hq7 xq8 rcv sH hq8 xq9
      sxv s9v hq9 xq10 ftv s12v hq10 xq11 swv s13v hq11 xq12 shv s14v hq12
      xq13 tgv s15v hq13 ht0
    injection h with h
    subst h
    have B0 : ByteOk (List.drop 13 b) := ByteOk_drop 13 hb
    have k1 := read_uint32_value_lt B0 hq1
    have B1 := rdUInt_tail_byteOk B0 hq1
    have k2 := read_uint32_value_lt B1 hq2
    have B2 := rdUInt_tail_byteOk B1 hq2
    have k3 := read_uint32_value_lt B2 hq3
    have B3 := rdUInt_tail_byteOk B2 hq3
    have n4 := read_wstring_len_lt B3 hq4
    have B4 := read_wstring_tail_byteOk B3 hq4
    have k5 := read_uint32_value_lt B4 hq5
    have B5 := rdUInt_tail_byteOk B4 hq5
    have n6 := read_wstring_len_lt B5 hq6
    have B6 := read_wstring_tail_byteOk B5 hq6
    have n7 := read_wstring_len_lt B6 hq7
    have B7 := read_wstring_tail_byteOk B6 hq7
    have n8 := read_wstring_len_lt B7 hq8
    have B8 := read_wstring_tail_byteOk B7 hq8
    have k9 := read_uint16_value_lt B8 hq9
    have B9 := rdUInt_tail_byteOk B8 hq9
    have k10 := read_uint64_value_lt (ByteOk_drop 4 (ByteOk_drop 4 B9)) hq10
    have B10 := rdUInt_tail_byteOk (ByteOk_drop 4 (ByteOk_drop 4 B9)) hq10
    have k11 := read_uint32_value_lt B10 hq11
    have B11 := rdUInt_tail_byteOk B10 hq11
    have k12 := read_uint32_value_lt B11 hq12
    exact ⟨k1, k2, k3, n4, k5, n6, n7, n8, k9, k10, k11, k12⟩
  · rename_i hm xq1 hsv sA hq1 xq2 ver sB hq2 hv12 xq3 snv sC hq3 xq4 nmv sD
      hq4 xq5 lvlv sE hq5 xq6 locv sF hq6 xq7 dtv sG hq7 xq8 rcv sH hq8 xq9
      sxv s9v hq9 xq10 ftv s12v hq10 xq11 swv s13v hq11 xq12 shv s14v hq12
      xq13 tgv s15v hq13 ht0n ht2 xq14 ulv s17v hq14 xq15 clv s18v hq15 xq16
      blobv hq16 hne
    injection h with h
    subst h
    have B0 : ByteOk (List.drop 13 b) := ByteOk_drop 13 hb
    have k1 := read_uint32_value_lt B0 hq1
    have B1 := rdUInt_tail_byteOk B0 hq1
    have k2 := read_uint32_value_lt B1 hq2
    have B2 := rdUInt_tail_byteOk B1 hq2
    have k3 := read_uint32_value_lt B2 hq3
    have B3 := rdUInt_tail_byteOk B2 hq3
    have n4 := read_wstring_len_lt B3 hq4
    have B4 := read_wstring_tail_byteOk B3 hq4
    have k5 := read_uint32_value_lt B4 hq5
    have B5 := rdUInt_tail_byteOk B4 hq5
    have n6 := read_wstring_len_lt B5 hq6
    have B6 := read_wstring_tail_byteOk B5 hq6
    have n7 := read_wstring_len_lt B6 hq7
    have B7 := read_wstring_tail_byteOk B6 hq7
    have n8 := read_wstring_len_lt B7 hq8
    have B8 := read_wstring_tail_byteOk B7 hq8
    have k9 := read_uint16_value_lt B8 hq9
    have B9 := rdUInt_tail_byteOk B8 hq9
    have k10 := read_uint64_value_lt (ByteOk_drop 4 (ByteOk_drop 4 B9)) hq10
    have B10 := rdUInt_tail_byteOk (ByteOk_drop 4 (ByteOk_drop 4 B9)) hq10
    have k11 := read_uint32_value_lt B10 hq11
    have B11 := rdUInt_tail_byteOk B10 hq11
    have k12 := read_uint32_value_lt B11 hq12
    exact ⟨k1, k2, k3, n4, k5, n6, n7, n8, k9, k10, k11, k12⟩

theorem ESS.get_compressed_some_inv {compress : List Nat → List Nat} {r : ESS}
    {enc : List Nat} (h : r.get_compressed compress = some enc) :
    r.encBounds ∧ r.uncompressedBlob.length < 2 ^ 32 ∧
    (compress r.uncompressedBlob).length < 2 ^ 32 ∧
    enc = mkSaveInput r.headerSize r.version r.saveNumber r.playerName
      r.playerLevel r.playerLocation r.gameDate r.playerRaceEditorId
      r.playerSex r.playerCurExp r.playerLvlUpExp r.filetime r.shotWidth
      r.shotHeight 2
      (r.screenshotData ++ natToLE 4 r.uncompressedBlob.length ++
        natToLE 4 (compress r.uncompressedBlob).length ++
        compress r.uncompressedBlob) := by
  unfold ESS.get_compressed at h
  obtain ⟨b1, c1, hb1, h1, he1⟩ := joinChunks_cons_inv h
  obtain ⟨b2, c2, hb2, h2, he2⟩ := joinChunks_cons_inv h1
  obtain ⟨b3, c3, hb3, h3, he3⟩ := joinChunks_cons_inv h2
  obtain ⟨b4, c4, hb4, h4, he4⟩ := joinChunks_cons_inv h3
  obtain ⟨b5, c5, hb5, h5, he5⟩ := joinChunks_cons_inv h4
  obtain ⟨b6, c6, hb6, h6, he6⟩ := joinChunks_cons_inv h5
  obtain ⟨b7, c7, hb7, h7, he7⟩ := joinChunks_cons_inv h6
  obtain ⟨b8, c8, hb8, h8, he8⟩ := joinChunks_cons_inv h7
  obtain ⟨b9, c9, hb9, h9, he9⟩ := joinChunks_cons_inv h8
  obtain ⟨b10, c10, hb10, h10, he10⟩ := joinChunks_cons_inv h9
  obtain ⟨b11, c11, hb11, h11, he11⟩ := joinChunks_cons_inv h10
  obtain ⟨b12, c12, hb12, h12, he12⟩ := joinChunks_cons_inv h11
  obtain ⟨b13, c13, hb13, h13, he13⟩ := joinChunks_cons_inv h12
  obtain ⟨b14, c14, hb14, h14, he14⟩ := joinChunks_cons_inv h13
  obtain ⟨b15, c15, hb15, h15, he15⟩ := joinChunks_cons_inv h14
  obtain ⟨b16, c16, hb16, h16, he16⟩ := joinChunks_cons_inv h15
  obtain ⟨b17, c17, hb17, h17, he17⟩ := joinChunks_cons_inv h16
  obtain ⟨b18, c18, hb18, h18, he18⟩ := joinChunks_cons_inv h17
  obtain ⟨b19, c19, hb19, h19, he19⟩ := joinChunks_cons_inv h18
  obtain ⟨b20, c20, hb20, h20, he20⟩ := joinChunks_cons_inv h19
  simp only [joinChunks] at h20
  injection h20 with hc20
  subst he1 he2 he3 he4 he5 he6 he7 he8 he9 he10 he11 he12 he13 he14 he15
  subst he16 he17 he18 he19 he20
  injection hb1 with e1
  subst e1
  injection hb11 with e11
  subst e11
  injection hb12 with e12
  subst e12
  injection hb17 with e17
  subst e17
  injection hb20 with e20
  subst e20
  obtain ⟨k2, e2⟩ := pack_uint32_some_inv hb2
  subst e2
  obtain ⟨k3, e3⟩ := pack_uint32_some_inv hb3
  subst e3
  obtain ⟨k4, e4⟩ := pack_uint32_some_inv hb4
  subst e4
  obtain ⟨k5, e5⟩ := pack_wstring_some_inv hb5
  subst e5
  obtain ⟨k6, e6⟩ := pack_uint32_some_inv hb6
  subst e6
  obtain ⟨k7, e7⟩ := pack_wstring_some_inv hb7
  subst e7
  obtain ⟨k8, e8⟩ := pack_wstring_some_inv hb8
  subst e8
  obtain ⟨k9, e9⟩ := pack_wstring_some_inv hb9
  subst e9
  obtain ⟨k10, e10⟩ := pack_uint16_some_inv hb10
  subst e10
  obtain ⟨k13, e13⟩ := pack_uint64_some_inv hb13
  subst e13
  obtain ⟨k14, e14⟩ := pack_uint32_some_inv hb14
  subst e14
  obtain ⟨k15, e15⟩ := pack_uint32_some_inv hb15
  subst e15
  obtain ⟨k16, e16⟩ := pack_uint16_some_inv hb16
  subst e16
  obtain ⟨k18, e18⟩ := pack_uint32_some_inv hb18
  subst e18
  obtain ⟨k19, e19⟩ := pack_uint32_some_inv hb19
  subst e19
  refine ⟨⟨k2, k3, k4, k5, k6, k7, k8, k9, k10, k13, k14, k15⟩, k18, k19, ?_⟩
  rw [← hc20]
  simp [mkSaveInput, wstrBytes, List.append_assoc]

/-- Re-decoding `get_uncompressed` output restores every field except that
the tag becomes STORED and the size fields are cleared; this holds even
when the original record carries a short screenshot (possible only on the
STORED path, where the payload is then empty). -/
theorem ESS.roundtrip_stored {d d2 : List Nat → Nat → Option (List Nat)}
    {b : List Nat} {r : ESS} {ub : List Nat}
    (h : ESS.decode d b = .ok r) (hu : r.get_uncompressed = some ub) :
    ESS.decode d2 ub = .ok { r with
      compressionType := 0
      uncompressedLen := none
      compressedLen := none } := by
  obtain ⟨hB, rfl⟩ := ESS.get_uncompressed_some_inv hu
  obtain ⟨hver, hce, hle, htags, hssle, hst0, hst2⟩ := ESS.decode_ok_facts h
  obtain ⟨h1, h2, h3, h4, h5, h6, h7, h8, h9, h10, h11, h12⟩ := hB
  rw [hver]
  rw [ESS.decode_mk d2 r.headerSize r.saveNumber r.playerLevel r.playerSex
    r.filetime r.shotWidth r.shotHeight 0 r.playerName r.playerLocation
    r.gameDate r.playerRaceEditorId r.playerCurExp r.playerLvlUpExp
    (r.screenshotData ++ r.uncompressedBlob) h1 h3 h4 h5 h6 h7 h8 h9 hce hle
    h10 h11 h12 (by norm_num)]
  rw [if_pos rfl]
  by_cases hfull : r.screenshotData.length = 4 * r.shotWidth * r.shotHeight
  · rw [List.take_left' hfull, List.drop_left' hfull]
  · have hshort : r.screenshotData.length < 4 * r.shotWidth * r.shotHeight :=
      lt_of_le_of_ne hssle hfull
    rcases htags with ht0 | ht2
    · have hblob := (hst0 ht0).2.2 hshort
      rw [hblob, List.append_nil, List.take_of_length_le (le_of_lt hshort),
        List.drop_eq_nil_of_le (le_of_lt hshort), ← hblob]
    · exact absurd ((hst2 ht2).1) hfull

/-- Re-decoding `get_compressed` output (with any decompressor that inverts
the compressor on this payload) restores every field except that the tag
becomes COMPRESSED and the size fields hold the freshly computed sizes;
requires the record's screenshot to be full-width, which every COMPRESSED
decode guarantees and a STORED decode can violate. -/
theorem ESS.roundtrip_compressed {d d2 : List Nat → Nat → Option (List Nat)}
    {compress : List Nat → List Nat} {b : List Nat} {r : ESS} {enc : List Nat}
    (h : ESS.decode d b = .ok r) (hc : r.get_compressed compress = some enc)
    (hfull : r.screenshotData.length = 4 * r.shotWidth * r.shotHeight)
    (hd2 : d2 (compress r.uncompressedBlob) r.uncompressedBlob.length =
      some r.uncompressedBlob) :
    ESS.decode d2 enc = .ok { r with
      compressionType := 2
      uncompressedLen := some r.uncompressedBlob.length
      compressedLen := some (compress r.uncompressedBlob).length } := by
  obtain ⟨hB, hu32, hc32, rfl⟩ := ESS.get_compressed_some_inv hc
  obtain ⟨hver, hce, hle, htags, hssle, hst0, hst2⟩ := ESS.decode_ok_facts h
  obtain ⟨h1, h2, h3, h4, h5, h6, h7, h8, h9, h10, h11, h12⟩ := hB
  rw [hver]
  rw [ESS.decode_mk d2 r.headerSize r.saveNumber r.playerLevel r.playerSex
    r.filetime r.shotWidth r.shotHeight 2 r.playerName r.playerLocation
    r.gameDate r.playerRaceEditorId r.playerCurExp r.playerLvlUpExp
    (r.screenshotData ++ natToLE 4 r.uncompressedBlob.length ++
      natToLE 4 (compress r.uncompressedBlob).length ++
      compress r.uncompressedBlob) h1 h3 h4 h5 h6 h7 h8 h9 hce hle
    h10 h11 h12 (by norm_num)]
  rw [if_neg (by norm_num), if_pos rfl]
  have hassoc : r.screenshotData ++ natToLE 4 r.uncompressedBlob.length ++
      natToLE 4 (compress r.uncompressedBlob).length ++
      compress r.uncompressedBlob = r.screenshotData ++
      (natToLE 4 r.uncompressedBlob.length ++
      (natToLE 4 (compress r.uncompressedBlob).length ++
      compress r.uncompressedBlob)) := by
    simp [List.append_assoc]
  rw [hassoc, List.take_left' hfull, List.drop_left' hfull]
  simp only [read_uint32_append _ _ hu32, read_uint32_append _ _ hc32, hd2]
  rw [if_neg (by simp)]

theorem ESS.decode_invalidMagic_inv {d : List Nat → Nat → Option (List Nat)}
    {b : List Nat} (h : ESS.decode d b = .error .invalidMagic) :
    b.take 13 ≠ MAGIC := by
  intro hmag
  unfold ESS.decode at h
  rw [if_neg (by simpa using hmag)] at h
  repeat' split at h
  all_goals simp at h

theorem ESS.decode_unsupportedVersion_inv
    {d : List Nat → Nat → Option (List Nat)} {b : List Nat} {v : Nat}
    (h : ESS.decode d b = .error (.unsupportedVersion v)) : v ≠ 12 := by
  unfold ESS.decode at h
  repeat' split at h
  all_goals simp_all

theorem ESS.decode_invalidCompression_inv
    {d : List Nat → Nat → Option (List Nat)} {b : List Nat} {t : Nat}
    (h : ESS.decode d b = .error (.invalidCompression t)) : t ≠ 0 ∧ t ≠ 2 := by
  unfold ESS.decode at h
  repeat' split at h
  all_goals simp_all

instance {e a : Type} [DecidableEq e] [DecidableEq a] :
    DecidableEq (Except e a) := fun x y =>
  match x, y with
  | .error u, .error v =>
      if h : u = v then isTrue (by rw [h])
      else isFalse (fun hx => h (by injection hx))
  | .error _, .ok _ => isFalse (fun hx => Except.noConfusion hx)
  | .ok _, .error _ => isFalse (fun hx => Except.noConfusion hx)
  | .ok u, .ok v =>
      if h : u = v then isTrue (by rw [h])
      else isFalse (fun hx => h (by injection hx))

/-- Identity stand-in for `lz4.block.compress` in concrete witnesses. -/
def idCompress (s : List Nat) : List Nat := s

/-- Identity stand-in for `lz4.block.decompress` in concrete witnesses:
returns the buffer unchanged, ignoring the size hint. -/
def idDecompress (s : List Nat) (_u : Nat) : Option (List Nat) := some s

/-- C1 (amended): for every byte string `b` that decodes to a record `r`,
`get_uncompressed r` succeeds and decodes back to `r` with only the tag and
size fields normalized; and whenever `get_compressed r` succeeds and `r`'s
screenshot is full-width (`4*width*height` bytes — automatic for COMPRESSED
inputs, violable only by a truncated STORED input), it too decodes back
(under any decompressor inverting the compressor on `r`'s payload) to `r`
with only the tag and the two size fields changed.  All other fields —
headerSize, saveNumber, the four text fields, playerLevel, playerSex, the
exp blobs, filetime, screenshot dimensions and data, and the payload — are
preserved exactly. -/
theorem c1_roundtrip (d : List Nat → Nat → Option (List Nat)) (b : List Nat)
    (r : ESS) (hb : ByteOk b) (h : ESS.decode d b = .ok r) :
    (∃ ub, r.get_uncompressed = some ub ∧
      ∀ d2, ESS.decode d2 ub = .ok { r with
        compressionType := 0
        uncompressedLen := none
        compressedLen := none }) ∧
    (∀ compress enc, r.get_compressed compress = some enc →
      r.screenshotData.length = 4 * r.shotWidth * r.shotHeight →
      ∀ d2, d2 (compress r.uncompressedBlob) r.uncompressedBlob.length =
          some r.uncompressedBlob →
        ESS.decode d2 enc = .ok { r with
          compressionType := 2
          uncompressedLen := some r.uncompressedBlob.length
          compressedLen := some (compress r.uncompressedBlob).length }) := by
  constructor
  · have hB := ESS.decode_ok_encBounds hb h
    refine ⟨_, ESS.get_uncompressed_eq r hB, ?_⟩
    intro d2
    exact ESS.roundtrip_stored h (ESS.get_uncompressed_eq r hB)
  · intro compress enc hc hfull d2 hd2
    exact ESS.roundtrip_compressed h hc hfull hd2

/-- Witness input for the C1 roundtrip: a STORED save with a 4-byte
screenshot (1×1) and payload `[1, 2, 3]`. -/
def c1WitInput : List Nat :=
  mkSaveInput 7 12 3 [65] 5 [66] [67] [68] 1 [9, 9, 9, 9] [8, 8, 8, 8]
    123456 1 1 0 ([10, 20, 30, 40] ++ [1, 2, 3])

/-- The record `c1WitInput` decodes to. -/
def c1WitRecord : ESS :=
  ⟨7, 12, 3, [65], 5, [66], [67], [68], 1, [9, 9, 9, 9], [8, 8, 8, 8],
    123456, 1, 1, 0, [10, 20, 30, 40], [1, 2, 3], none, none⟩

theorem c1_roundtrip_witness :
    (∃ ub, c1WitRecord.get_uncompressed = some ub ∧
      ∀ d2, ESS.decode d2 ub = .ok { c1WitRecord with
        compressionType := 0
        uncompressedLen := none
        compressedLen := none }) ∧
    (∀ compress enc, c1WitRecord.get_compressed compress = some enc →
      c1WitRecord.screenshotData.length =
        4 * c1WitRecord.shotWidth * c1WitRecord.shotHeight →
      ∀ d2, d2 (compress c1WitRecord.uncompressedBlob)
          c1WitRecord.uncompressedBlob.length =
          some c1WitRecord.uncompressedBlob →
        ESS.decode d2 enc = .ok { c1WitRecord with
          compressionType := 2
          uncompressedLen := some c1WitRecord.uncompressedBlob.length
          compressedLen :=
            some (compress c1WitRecord.uncompressedBlob).length }) :=
  c1_roundtrip idDecompress c1WitInput c1WitRecord (by decide) (by decide)

/-- Input refuting C1 as literally stated: a STORED record whose screenshot
bytes are missing entirely (width = height = 1 but zero screenshot bytes
present), which `ESS.__init__` accepts. -/
def c1CexInput : List Nat :=
  mkSaveInput 0 12 0 [] 0 [] [] [] 0 [0, 0, 0, 0] [0, 0, 0, 0] 0 1 1 0 []

/-- The record `c1CexInput` decodes to: note the empty screenshot. -/
def c1CexRecord : ESS :=
  ⟨0, 12, 0, [], 0, [], [], [], 0, [0, 0, 0, 0], [0, 0, 0, 0], 0, 1, 1, 0,
    [], [], none, none⟩

/-- C1 as stated is false: this decodable input yields a record whose
`get_compressed` form fails to decode at all (truncated), because the
4-byte-short screenshot makes the re-parse consume the size fields as
screenshot bytes. -/
theorem c1_roundtrip_cex :
    ESS.decode idDecompress c1CexInput = .ok c1CexRecord ∧
    c1CexRecord.screenshotData.length ≠
      4 * c1CexRecord.shotWidth * c1CexRecord.shotHeight ∧
    (c1CexRecord.get_compressed idCompress).map (ESS.decode idDecompress) =
      some (.error .truncated) := by decide

/-- Failing input for C3: a STORED save truncated two bytes into its
4-byte screenshot. -/
def c3FailInput : List Nat :=
  mkSaveInput 0 12 0 [] 0 [] [] [] 0 [0, 0, 0, 0] [0, 0, 0, 0] 0 1 1 0
    [170, 187]

/-- The record the code actually produces on `c3FailInput`. -/
def c3FailRecord : ESS :=
  ⟨0, 12, 0, [], 0, [], [], [], 0, [0, 0, 0, 0], [0, 0, 0, 0], 0, 1, 1, 0,
    [170, 187], [], none, none⟩

/-- C3's failing input evaluated: the decode succeeds with a 2-byte
screenshotData where the claim requires a truncated-input failure
(4*1*1 = 4 bytes were declared); the raw `f.read` of the screenshot is
never length-checked on the STORED path. -/
theorem c3_truncated_screenshot_eval :
    ESS.decode idDecompress c3FailInput = .ok c3FailRecord ∧
    c3FailRecord.screenshotData.length = 2 ∧
    4 * c3FailRecord.shotWidth * c3FailRecord.shotHeight = 4 := by decide

/-- C8: the filetime conversion is exactly the floor of
`(ft - 116444736000000000) / 10^7`: stated both as the `Int.fdiv` identity
and by the defining floor inequalities, and `get_filetime_as_posix_seconds`
is that conversion applied to the record's filetime field. -/
theorem c8_filetime_conversion (ft : Nat) :
    windows_filetime_to_unix_second ft =
      Int.fdiv ((ft : Int) - 116444736000000000) 10000000 ∧
    10000000 * windows_filetime_to_unix_second ft ≤
      (ft : Int) - 116444736000000000 ∧
    (ft : Int) - 116444736000000000 <
      10000000 * (windows_filetime_to_unix_second ft + 1) ∧
    ∀ r : ESS, r.get_filetime_as_posix_seconds =
      windows_filetime_to_unix_second r.filetime := by
  have h1 : windows_filetime_to_unix_second ft =
      Int.fdiv ((ft : Int) - 116444736000000000) 10000000 := by
    unfold windows_filetime_to_unix_second
    norm_num
  have h2 : Int.fdiv ((ft : Int) - 116444736000000000) 10000000 =
      ((ft : Int) - 116444736000000000) / 10000000 :=
    Int.fdiv_eq_ediv _ (by norm_num)
  have h3 := Int.ediv_add_emod ((ft : Int) - 116444736000000000) 10000000
  have h4 := Int.emod_nonneg ((ft : Int) - 116444736000000000)
    (show (10000000 : Int) ≠ 0 by norm_num)
  have h5 := Int.emod_lt_of_pos ((ft : Int) - 116444736000000000)
    (show (0 : Int) < 10000000 by norm_num)
  refine ⟨h1, ?_, ?_, fun r => rfl⟩
  · rw [h1, h2]; omega
  · rw [h1, h2]; omega

/-- C4: decode rejects with the magic error exactly the inputs whose first
13 bytes are not `TESV_SAVEGAME`; rejects with the version error exactly
the well-formed prefixes whose formatVersion is not 12; and rejects with
the compression error exactly the well-formed headers whose u16 tag is
neither 0 nor 2 (a tag of 0 always decodes, a tag of 2 never yields the
invalid-compression error). -/
theorem c4_format_rejection (d : List Nat → Nat → Option (List Nat)) :
    (∀ b, b.take 13 ≠ MAGIC → ESS.decode d b = .error .invalidMagic) ∧
    (∀ b, ESS.decode d b = .error .invalidMagic → b.take 13 ≠ MAGIC) ∧
    (∀ hs v rest, hs < 2 ^ 32 → v < 2 ^ 32 → v ≠ 12 →
      ESS.decode d (MAGIC ++ natToLE 4 hs ++ natToLE 4 v ++ rest) =
        .error (.unsupportedVersion v)) ∧
    (∀ b v, ESS.decode d b = .error (.unsupportedVersion v) → v ≠ 12) ∧
    (∀ hs sn lvl sex ft w h tag : Nat, ∀ name loc date race ce le body : List Nat,
      hs < 2 ^ 32 → sn < 2 ^ 32 → name.length < 2 ^ 16 → lvl < 2 ^ 32 →
      loc.length < 2 ^ 16 → date.length < 2 ^ 16 → race.length < 2 ^ 16 →
      sex < 2 ^ 16 → ce.length = 4 → le.length = 4 → ft < 2 ^ 64 →
      w < 2 ^ 32 → h < 2 ^ 32 → tag < 2 ^ 16 → tag ≠ 0 → tag ≠ 2 →
      ESS.decode d
          (mkSaveInput hs 12 sn name lvl loc date race sex ce le ft w h tag
            body) = .error (.invalidCompression tag)) ∧
    (∀ b t, ESS.decode d b = .error (.invalidCompression t) → t ≠ 0 ∧ t ≠ 2) ∧
    (∀ hs sn lvl sex ft w h : Nat, ∀ name loc date race ce le body : List Nat,
      hs < 2 ^ 32 → sn < 2 ^ 32 → name.length < 2 ^ 16 → lvl < 2 ^ 32 →
      loc.length < 2 ^ 16 → date.length < 2 ^ 16 → race.length < 2 ^ 16 →
      sex < 2 ^ 16 → ce.length = 4 → le.length = 4 → ft < 2 ^ 64 →
      w < 2 ^ 32 → h < 2 ^ 32 →
      (∃ r, ESS.decode d
        (mkSaveInput hs 12 sn name lvl loc date race sex ce le ft w h 0
          body) = .ok r) ∧
      (∀ t', ESS.decode d
        (mkSaveInput hs 12 sn name lvl loc date race sex ce le ft w h 2
          body) ≠ .error (.invalidCompression t'))) := by
  refine ⟨?_, ?_, ?_, ?_, ?_, ?_, ?_⟩
  · intro b hbad
    unfold ESS.decode
    rw [if_pos hbad]
  · exact fun b => ESS.decode_invalidMagic_inv
  · intro hs v rest hh hv hne
    unfold ESS.decode
    simp only [List.append_assoc]
    rw [if_neg (by simp [magic_take])]
    simp only [magic_drop, read_uint32_append _ _ hh, read_uint32_append _ _ hv]
    rw [if_pos hne]
  · exact fun b v => ESS.decode_unsupportedVersion_inv
  · intro hs sn lvl sex ft w h tag name loc date race ce le body h1 h2 h3 h4
      h5 h6 h7 h8 h9 h10 h11 h12 h13 h14 ht0 ht2
    rw [ESS.decode_mk d hs sn lvl sex ft w h tag name loc date race ce le
      body h1 h2 h3 h4 h5 h6 h7 h8 h9 h10 h11 h12 h13 h14]
    rw [if_neg ht0, if_neg ht2]
  · exact fun b t => ESS.decode_invalidCompression_inv
  · intro hs sn lvl sex ft w h name loc date race ce le body h1 h2 h3 h4
      h5 h6 h7 h8 h9 h10 h11 h12 h13
    constructor
    · rw [ESS.decode_mk d hs sn lvl sex ft w h 0 name loc date race ce le
        body h1 h2 h3 h4 h5 h6 h7 h8 h9 h10 h11 h12 h13 (by norm_num)]
      rw [if_pos rfl]
      exact ⟨_, rfl⟩
    · intro t'
      rw [ESS.decode_mk d hs sn lvl sex ft w h 2 name loc date race ce le
        body h1 h2 h3 h4 h5 h6 h7 h8 h9 h10 h11 h12 h13 (by norm_num)]
      rw [if_neg (by norm_num), if_pos rfl]
      repeat' split
      all_goals simp

theorem c4_format_rejection_witness :
    ESS.decode idDecompress [0, 1, 2] = .error .invalidMagic ∧
    ESS.decode idDecompress
      (MAGIC ++ natToLE 4 0 ++ natToLE 4 11 ++ []) =
        .error (.unsupportedVersion 11) ∧
    ESS.decode idDecompress
      (mkSaveInput 0 12 0 [] 0 [] [] [] 0 [0, 0, 0, 0] [0, 0, 0, 0] 0 0 0 1
        []) = .error (.invalidCompression 1) :=
  ⟨(c4_format_rejection idDecompress).1 [0, 1, 2] (by decide),
   (c4_format_rejection idDecompress).2.2.1 0 11 [] (by decide) (by decide)
     (by decide),
   (c4_format_rejection idDecompress).2.2.2.2.1 0 0 0 0 0 0 0 1 [] [] [] []
     [0, 0, 0, 0] [0, 0, 0, 0] [] (by decide) (by decide) (by decide)
     (by decide) (by decide) (by decide) (by decide) (by decide) (by decide)
     (by decide) (by decide) (by decide) (by decide) (by decide) (by decide)
     (by decide)⟩

/-- C5: on a COMPRESSED record the codec reads the declared uncompressed
and compressed lengths, hands all remaining bytes to the decompressor with
the declared uncompressed length as target, and then accepts exactly when
the produced length equals the declared one, failing with the size-mismatch
error otherwise (or with a decompress error if the library itself fails);
the declared compressed length `clen` is quantified over and never
consulted — this length check is the only integrity check on the payload. -/
theorem c5_compressed_size_check (d : List Nat → Nat → Option (List Nat))
    (hs sn lvl sex ft w h ulen clen : Nat)
    (name loc date race ce le ss rest input : List Nat)
    (h1 : hs < 2 ^ 32) (h2 : sn < 2 ^ 32) (h3 : name.length < 2 ^ 16)
    (h4 : lvl < 2 ^ 32) (h5 : loc.length < 2 ^ 16)
    (h6 : date.length < 2 ^ 16) (h7 : race.length < 2 ^ 16)
    (h8 : sex < 2 ^ 16) (h9 : ce.length = 4) (h10 : le.length = 4)
    (h11 : ft < 2 ^ 64) (h12 : w < 2 ^ 32) (h13 : h < 2 ^ 32)
    (hss : ss.length = 4 * w * h) (hulen : ulen < 2 ^ 32)
    (hclen : clen < 2 ^ 32)
    (hinput : input = mkSaveInput hs 12 sn name lvl loc date race sex ce le
      ft w h 2 (ss ++ natToLE 4 ulen ++ natToLE 4 clen ++ rest)) :
    (d rest ulen = none → ESS.decode d input = .error .decompressFailed) ∧
    (∀ blob, d rest ulen = some blob → blob.length ≠ ulen →
      ESS.decode d input = .error .sizeMismatch) ∧
    (∀ blob, d rest ulen = some blob → blob.length = ulen →
      ESS.decode d input = .ok ⟨hs, 12, sn, name, lvl, loc, date, race, sex,
        ce, le, ft, w, h, 2, ss, blob, some ulen, some clen⟩) := by
  subst hinput
  rw [ESS.decode_mk d hs sn lvl sex ft w h 2 name loc date race ce le
    (ss ++ natToLE 4 ulen ++ natToLE 4 clen ++ rest) h1 h2 h3 h4 h5 h6 h7 h8
    h9 h10 h11 h12 h13 (by norm_num)]
  rw [if_neg (by norm_num), if_pos rfl]
  have hassoc : ss ++ natToLE 4 ulen ++ natToLE 4 clen ++ rest =
      ss ++ (natToLE 4 ulen ++ (natToLE 4 clen ++ rest)) := by
    simp [List.append_assoc]
  rw [hassoc]
  simp only [List.take_left' hss, List.drop_left' hss,
    read_uint32_append _ _ hulen, read_uint32_append _ _ hclen]
  refine ⟨?_, ?_, ?_⟩
  · intro hd
    simp only [hd]
  · intro blob hd hne
    simp only [hd]
    rw [if_pos hne]
  · intro blob hd he
    simp only [hd]
    rw [if_neg (not_not_intro he)]

theorem c5_compressed_size_check_witness :
    (ESS.decode idDecompress
      (mkSaveInput 0 12 0 [] 0 [] [] [] 0 [1, 1, 1, 1] [2, 2, 2, 2] 0 0 0 2
        ([] ++ natToLE 4 3 ++ natToLE 4 9 ++ [5])) =
      .error .sizeMismatch) ∧
    (ESS.decode idDecompress
      (mkSaveInput 0 12 0 [] 0 [] [] [] 0 [1, 1, 1, 1] [2, 2, 2, 2] 0 0 0 2
        ([] ++ natToLE 4 1 ++ natToLE 4 9 ++ [5])) =
      .ok ⟨0, 12, 0, [], 0, [], [], [], 0, [1, 1, 1, 1], [2, 2, 2, 2], 0, 0,
        0, 2, [], [5], some 1, some 9⟩) :=
  ⟨(c5_compressed_size_check idDecompress 0 0 0 0 0 0 0 3 9 [] [] [] []
      [1, 1, 1, 1] [2, 2, 2, 2] [] [5] _ (by decide) (by decide) (by decide)
      (by decide) (by decide) (by decide) (by decide) (by decide) (by decide)
      (by decide) (by decide) (by decide) (by decide) (by decide) (by decide)
      (by decide) rfl).2.1 [5] rfl (by decide),
   (c5_compressed_size_check idDecompress 0 0 0 0 0 0 0 1 9 [] [] [] []
      [1, 1, 1, 1] [2, 2, 2, 2] [] [5] _ (by decide) (by decide) (by decide)
      (by decide) (by decide) (by decide) (by decide) (by decide) (by decide)
      (by decide) (by decide) (by decide) (by decide) (by decide) (by decide)
      (by decide) rfl).2.2 [5] rfl (by decide)⟩

/-- C9: two COMPRESSED inputs identical except in the four bytes of the
declared compressed-length field fail identically or succeed with records
equal in every field except the recorded `compressedLen`, and both their
re-encodings (stored or compressed) are byte-identical: the field is read,
recorded, and never used. -/
theorem c9_compressedLen_never_used (d : List Nat → Nat → Option (List Nat))
    (hs sn lvl sex ft w h ulen ca cb : Nat)
    (name loc date race ce le ss rest : List Nat)
    (h1 : hs < 2 ^ 32) (h2 : sn < 2 ^ 32) (h3 : name.length < 2 ^ 16)
    (h4 : lvl < 2 ^ 32) (h5 : loc.length < 2 ^ 16)
    (h6 : date.length < 2 ^ 16) (h7 : race.length < 2 ^ 16)
    (h8 : sex < 2 ^ 16) (h9 : ce.length = 4) (h10 : le.length = 4)
    (h11 : ft < 2 ^ 64) (h12 : w < 2 ^ 32) (h13 : h < 2 ^ 32)
    (hss : ss.length = 4 * w * h) (hulen : ulen < 2 ^ 32)
    (hca : ca < 2 ^ 32) (hcb : cb < 2 ^ 32) :
    (∀ e, ESS.decode d (mkSaveInput hs 12 sn name lvl loc date race sex ce le
        ft w h 2 (ss ++ natToLE 4 ulen ++ natToLE 4 ca ++ rest)) = .error e ↔
      ESS.decode d (mkSaveInput hs 12 sn name lvl loc date race sex ce le
        ft w h 2 (ss ++ natToLE 4 ulen ++ natToLE 4 cb ++ rest)) =
        .error e) ∧
    (∀ r1, ESS.decode d (mkSaveInput hs 12 sn name lvl loc date race sex ce
        le ft w h 2 (ss ++ natToLE 4 ulen ++ natToLE 4 ca ++ rest)) =
        .ok r1 →
      r1.compressedLen = some ca ∧
      ESS.decode d (mkSaveInput hs 12 sn name lvl loc date race sex ce le
        ft w h 2 (ss ++ natToLE 4 ulen ++ natToLE 4 cb ++ rest)) =
        .ok { r1 with compressedLen := some cb } ∧
      r1.get_uncompressed =
        ESS.get_uncompressed { r1 with compressedLen := some cb } ∧
      ∀ cf, r1.get_compressed cf =
        ESS.get_compressed cf { r1 with compressedLen := some cb }) := by
  rw [ESS.decode_mk d hs sn lvl sex ft w h 2 name loc date race ce le
    (ss ++ natToLE 4 ulen ++ natToLE 4 ca ++ rest) h1 h2 h3 h4 h5 h6 h7 h8
    h9 h10 h11 h12 h13 (by norm_num)]
  rw [ESS.decode_mk d hs sn lvl sex ft w h 2 name loc date race ce le
    (ss ++ natToLE 4 ulen ++ natToLE 4 cb ++ rest) h1 h2 h3 h4 h5 h6 h7 h8
    h9 h10 h11 h12 h13 (by norm_num)]
  rw [if_neg (by norm_num), if_pos rfl, if_neg (by norm_num), if_pos rfl]
  have hassoc1 : ss ++ natToLE 4 ulen ++ natToLE 4 ca ++ rest =
      ss ++ (natToLE 4 ulen ++ (natToLE 4 ca ++ rest)) := by
    simp [List.append_assoc]
  have hassoc2 : ss ++ natToLE 4 ulen ++ natToLE 4 cb ++ rest =
      ss ++ (natToLE 4 ulen ++ (natToLE 4 cb ++ rest)) := by
    simp [List.append_assoc]
  rw [hassoc1, hassoc2]
  simp only [List.take_left' hss, List.drop_left' hss,
    read_uint32_append _ _ hulen, read_uint32_append _ _ hca,
    read_uint32_append _ _ hcb]
  cases hd : d rest ulen with
  | none =>
      simp only [hd]
      exact ⟨fun e => by simp, fun r1 hr1 => by simp at hr1⟩
  | some blob =>
      simp only [hd]
      by_cases hbl : blob.length = ulen
      · rw [if_neg (not_not_intro hbl), if_neg (not_not_intro hbl)]
        refine ⟨fun e => ⟨fun hx => by simp at hx, fun hx => by simp at hx⟩,
          fun r1 hr1 => ?_⟩
        injection hr1 with hr1
        subst hr1
        exact ⟨rfl, rfl, rfl, fun cf => rfl⟩
      · rw [if_pos hbl, if_pos hbl]
        exact ⟨fun e => by simp, fun r1 hr1 => by simp at hr1⟩

/-- The record decoded from the C9 witness input with declared
compressedLen 9 (payload `[5]`, declared uncompressedLen 1). -/
def c9WitRecord : ESS :=
  ⟨0, 12, 0, [], 0, [], [], [], 0, [1, 1, 1, 1], [2, 2, 2, 2], 0, 0, 0, 2,
    [], [5], some 1, some 9⟩

theorem c9_compressedLen_never_used_witness :
    c9WitRecord.compressedLen = some 9 ∧
    ESS.decode idDecompress
      (mkSaveInput 0 12 0 [] 0 [] [] [] 0 [1, 1, 1, 1] [2, 2, 2, 2] 0 0 0 2
        ([] ++ natToLE 4 1 ++ natToLE 4 7 ++ [5])) =
      .ok { c9WitRecord with compressedLen := some 7 } ∧
    c9WitRecord.get_uncompressed =
      ESS.get_uncompressed { c9WitRecord with compressedLen := some 7 } ∧
    ∀ cf, c9WitRecord.get_compressed cf =
      ESS.get_compressed cf { c9WitRecord with compressedLen := some 7 } :=
  (c9_compressedLen_never_used idDecompress 0 0 0 0 0 0 0 1 9 7 [] [] [] []
    [1, 1, 1, 1] [2, 2, 2, 2] [] [5] (by decide) (by decide) (by decide)
    (by decide) (by decide) (by decide) (by decide) (by decide) (by decide)
    (by decide) (by decide) (by decide) (by decide) (by decide) (by decide)
    (by decide) (by decide)).2 c9WitRecord (by decide)

/-- C10: the headerSize field is read but never validated and never bounds
any later read — decoding with headerSize `hs` gives exactly the result of
decoding the otherwise-identical input with headerSize `hsB`, with only the
recorded field changed — and both re-serializers emit the stored
headerSize value verbatim as bytes 13..16 of their output. -/
theorem c10_headerSize_unvalidated (d : List Nat → Nat → Option (List Nat))
    (hs hsB sn lvl sex ft w h tag : Nat)
    (name loc date race ce le body : List Nat)
    (h1 : hs < 2 ^ 32) (h1b : hsB < 2 ^ 32) (h2 : sn < 2 ^ 32)
    (h3 : name.length < 2 ^ 16) (h4 : lvl < 2 ^ 32)
    (h5 : loc.length < 2 ^ 16) (h6 : date.length < 2 ^ 16)
    (h7 : race.length < 2 ^ 16) (h8 : sex < 2 ^ 16) (h9 : ce.length = 4)
    (h10 : le.length = 4) (h11 : ft < 2 ^ 64) (h12 : w < 2 ^ 32)
    (h13 : h < 2 ^ 32) (h14 : tag < 2 ^ 16) :
    (ESS.decode d (mkSaveInput hs 12 sn name lvl loc date race sex ce le ft
        w h tag body) =
      Except.map (fun r => { r with headerSize := hs })
        (ESS.decode d (mkSaveInput hsB 12 sn name lvl loc date race sex ce
          le ft w h tag body))) ∧
    (∀ r ub, ESS.get_uncompressed r = some ub →
      (ub.drop 13).take 4 = natToLE 4 r.headerSize) ∧
    (∀ compress r enc, ESS.get_compressed compress r = some enc →
      (enc.drop 13).take 4 = natToLE 4 r.headerSize) := by
  refine ⟨?_, ?_, ?_⟩
  · rw [ESS.decode_mk d hs sn lvl sex ft w h tag name loc date race ce le
      body h1 h2 h3 h4 h5 h6 h7 h8 h9 h10 h11 h12 h13 h14]
    rw [ESS.decode_mk d hsB sn lvl sex ft w h tag name loc date race ce le
      body h1b h2 h3 h4 h5 h6 h7 h8 h9 h10 h11 h12 h13 h14]
    by_cases ht0 : tag = 0
    · subst ht0
      simp [Except.map]
    · by_cases ht2 : tag = 2
      · subst ht2
        rw [if_neg (by norm_num), if_pos rfl, if_neg (by norm_num),
          if_pos rfl]
        cases hu : read_uint32 (body.drop (4 * w * h)) with
        | none => simp [hu, Except.map]
        | some p =>
            obtain ⟨ulen, t1⟩ := p
            cases hc : read_uint32 t1 with
            | none => simp [hu, hc, Except.map]
            | some q =>
                obtain ⟨clen, t2⟩ := q
                cases hdc : d t2 ulen with
                | none => simp [hu, hc, hdc, Except.map]
                | some blob =>
                    by_cases hbl : blob.length = ulen
                    · simp [hu, hc, hdc, Except.map, not_not_intro hbl]
                    · simp [hu, hc, hdc, Except.map, hbl]
      · rw [if_neg ht0, if_neg ht2, if_neg ht0, if_neg ht2]
        simp [Except.map]
  · intro r ub hu
    obtain ⟨-, rfl⟩ := ESS.get_uncompressed_some_inv hu
    simp only [mkSaveInput, List.append_assoc, magic_drop]
    rw [List.take_left' (natToLE_length 4 r.headerSize)]
  · intro compress r enc hc
    obtain ⟨-, -, -, rfl⟩ := ESS.get_compressed_some_inv hc
    simp only [mkSaveInput, List.append_assoc, magic_drop]
    rw [List.take_left' (natToLE_length 4 r.headerSize)]

theorem c10_headerSize_unvalidated_witness :
    ESS.decode idDecompress
      (mkSaveInput 3 12 0 [] 0 [] [] [] 0 [1, 1, 1, 1] [2, 2, 2, 2] 0 0 0 0
        [7, 7]) =
      Except.map (fun r => { r with headerSize := 3 })
        (ESS.decode idDecompress
          (mkSaveInput 4000000000 12 0 [] 0 [] [] [] 0 [1, 1, 1, 1]
            [2, 2, 2, 2] 0 0 0 0 [7, 7])) :=
  (c10_headerSize_unvalidated idDecompress 3 4000000000 0 0 0 0 0 0 0 [] [] [] []
    [1, 1, 1, 1] [2, 2, 2, 2] [7, 7] (by decide) (by decide) (by decide)
    (by decide) (by decide) (by decide) (by decide) (by decide) (by decide)
    (by decide) (by decide) (by decide) (by decide) (by decide)
    (by decide)).1

/-- The framing of one ESS archive entry on the wire. -/
def essFrame (p : List Nat × List Nat) (ub : List Nat) : List Nat :=
  wstrBytes p.1 ++ natToLE 4 ub.length ++ ub

/-- The framing of one sidecar archive entry on the wire. -/
def skseFrame (p : List Nat × List Nat) : List Nat :=
  wstrBytes p.1 ++ natToLE 4 p.2.length ++ p.2

theorem essEntryChunk_some_inv {d : List Nat → Nat → Option (List Nat)}
    {p : List Nat × List Nat} {c : List Nat}
    (h : essEntryChunk d p = some c) :
    ∃ r ub, ESS.decode d p.2 = .ok r ∧ r.get_uncompressed = some ub ∧
      p.1.length < 2 ^ 16 ∧ ub.length < 2 ^ 32 ∧ c = essFrame p ub := by
  unfold essEntryChunk at h
  cases hd : ESS.decode d p.2 with
  | error e => simp only [hd] at h; exact Option.noConfusion h
  | ok r =>
      simp only [hd] at h
      cases hu : r.get_uncompressed with
      | none => simp only [hu] at h; exact Option.noConfusion h
      | some ub =>
          simp only [hu] at h
          obtain ⟨b1, c1, hb1, h1, he1⟩ := joinChunks_cons_inv h
          obtain ⟨b2, c2, hb2, h2, he2⟩ := joinChunks_cons_inv h1
          obtain ⟨b3, c3, hb3, h3, he3⟩ := joinChunks_cons_inv h2
          simp only [joinChunks] at h3
          injection h3 with hc3
          obtain ⟨k1, e1⟩ := pack_wstring_some_inv hb1
          obtain ⟨k2, e2⟩ := pack_uint32_some_inv hb2
          injection hb3 with e3
          refine ⟨r, ub, rfl, hu, k1, k2, ?_⟩
          subst he1 he2 he3
          rw [← hc3, e1, e2, ← e3]
          simp [essFrame, List.append_assoc]

theorem skseEntryChunk_some_inv {p : List Nat × List Nat} {c : List Nat}
    (h : skseEntryChunk p = some c) :
    p.1.length < 2 ^ 16 ∧ p.2.length < 2 ^ 32 ∧ c = skseFrame p := by
  unfold skseEntryChunk at h
  obtain ⟨b1, c1, hb1, h1, he1⟩ := joinChunks_cons_inv h
  obtain ⟨b2, c2, hb2, h2, he2⟩ := joinChunks_cons_inv h1
  obtain ⟨b3, c3, hb3, h3, he3⟩ := joinChunks_cons_inv h2
  simp only [joinChunks] at h3
  injection h3 with hc3
  obtain ⟨k1, e1⟩ := pack_wstring_some_inv hb1
  obtain ⟨k2, e2⟩ := pack_uint32_some_inv hb2
  injection hb3 with e3
  refine ⟨k1, k2, ?_⟩
  subst he1 he2 he3
  rw [← hc3, e1, e2, ← e3]
  simp [skseFrame, List.append_assoc]

/-- What a successful `joinChunks` over mapped ESS entries means: every
file decodes, re-serializes STORED, and contributes its framed bytes in
order. -/
theorem essChunks_layout {d : List Nat → Nat → Option (List Nat)}
    {ess : List (List Nat × List Nat)} {eb : List Nat}
    (h : joinChunks (ess.map (essEntryChunk d)) = some eb) :
    ∃ ubs, List.Forall₂ (fun p ub => p.1.length < 2 ^ 16 ∧
        ub.length < 2 ^ 32 ∧
        ∃ r, ESS.decode d p.2 = .ok r ∧ r.get_uncompressed = some ub)
      ess ubs ∧
    eb = (List.zipWith essFrame ess ubs).flatten := by
  induction ess generalizing eb with
  | nil =>
      simp only [List.map_nil, joinChunks] at h
      injection h with h
      exact ⟨[], List.Forall₂.nil, by simp [← h]⟩
  | cons p rest ih =>
      simp only [List.map_cons] at h
      obtain ⟨c, cs, hc, hrest, he⟩ := joinChunks_cons_inv h
      obtain ⟨ubs, hall, hbytes⟩ := ih hrest
      obtain ⟨r, ub, hdec, hu, hn, hl, hframe⟩ := essEntryChunk_some_inv hc
      refine ⟨ub :: ubs, List.Forall₂.cons ⟨hn, hl, r, hdec, hu⟩ hall, ?_⟩
      subst he hframe hbytes
      simp [List.zipWith]

/-- The sidecar analogue of `essChunks_layout`. -/
theorem skseChunks_layout {skse : List (List Nat × List Nat)} {sb : List Nat}
    (h : joinChunks (skse.map skseEntryChunk) = some sb) :
    (∀ p ∈ skse, p.1.length < 2 ^ 16 ∧ p.2.length < 2 ^ 32) ∧
    sb = (skse.map skseFrame).flatten := by
  induction skse generalizing sb with
  | nil =>
      simp only [List.map_nil, joinChunks] at h
      injection h with h
      exact ⟨by simp, by simp [← h]⟩
  | cons p rest ih =>
      simp only [List.map_cons] at h
      obtain ⟨c, cs, hc, hrest, he⟩ := joinChunks_cons_inv h
      obtain ⟨hall, hbytes⟩ := ih hrest
      obtain ⟨hn, hl, hframe⟩ := skseEntryChunk_some_inv hc
      refine ⟨?_, ?_⟩
      · intro q hq
        rcases List.mem_cons.mp hq with hq2 | hq2
        · exact hq2 ▸ ⟨hn, hl⟩
        · exact hall q hq2
      · subst he hframe hbytes
        simp

/-- What a successful `compress_files` means, decomposed into the header
counts and the two framed entry sections. -/
theorem compress_files_some_inv {d : List Nat → Nat → Option (List Nat)}
    {ess skse : List (List Nat × List Nat)} {stream : List Nat}
    (h : compress_files d ess skse = some stream) :
    ess.length < 2 ^ 32 ∧ skse.length < 2 ^ 32 ∧
    ∃ eb sb, joinChunks (ess.map (essEntryChunk d)) = some eb ∧
      joinChunks (skse.map skseEntryChunk) = some sb ∧
      stream = natToLE 4 ess.length ++ natToLE 4 skse.length ++ eb ++ sb := by
  unfold compress_files at h
  cases h1 : pack_uint32 ess.length with
  | none => rw [h1] at h; exact Option.noConfusion h
  | some hdr1 =>
  cases h2 : pack_uint32 skse.length with
  | none => rw [h1, h2] at h; exact Option.noConfusion h
  | some hdr2 =>
  cases h3 : joinChunks (ess.map (essEntryChunk d)) with
  | none => rw [h1, h2, h3] at h; exact Option.noConfusion h
  | some eb =>
  cases h4 : joinChunks (skse.map skseEntryChunk) with
  | none => rw [h1, h2, h3, h4] at h; exact Option.noConfusion h
  | some sb =>
      rw [h1, h2, h3, h4] at h
      injection h with h
      obtain ⟨k1, e1⟩ := pack_uint32_some_inv h1
      obtain ⟨k2, e2⟩ := pack_uint32_some_inv h2
      exact ⟨k1, k2, eb, sb, rfl, rfl, by rw [← h, e1, e2]⟩

theorem fsExists_append (a b : List (List Nat × List Nat)) (nm : List Nat) :
    fsExists (a ++ b) nm = (fsExists a nm || fsExists b nm) := by
  simp [fsExists, List.any_append]

theorem fsExists_single (x : List Nat × List Nat) (nm : List Nat) :
    fsExists [x] nm = decide (x.1 = nm) := by
  simp [fsExists]

theorem mkSaveInput_length_ge (hs ver sn : Nat) (name : List Nat) (lvl : Nat)
    (loc date race : List Nat) (sex : Nat) (ce le : List Nat)
    (ft w h tag : Nat) (body : List Nat) :
    body.length ≤ (mkSaveInput hs ver sn name lvl loc date race sex ce le ft
      w h tag body).length := by
  simp [mkSaveInput, List.length_append]
  omega

/-- Running the ESS restore loop over a stream holding the framed entries
that `compress_files` wrote: every entry is re-decoded and written back in
`get_compressed` form under its own name, in order, and the stem table
collects every entry's stem. -/
theorem decompressEssLoop_run {d : List Nat → Nat → Option (List Nat)}
    {compress : List Nat → List Nat} {ess : List (List Nat × List Nat)}
    {ubs : List (List Nat)}
    (hf : List.Forall₂ (fun p ub => p.1.length < 2 ^ 16 ∧
        ub.length < 2 ^ 32 ∧
        ∃ r, ESS.decode d p.2 = .ok r ∧ r.get_uncompressed = some ub)
      ess ubs)
    (hcomp : ∀ x : List Nat, x.length < 2 ^ 32 → (compress x).length < 2 ^ 32)
    (fs0 : List (List Nat × List Nat)) (table0 : List (List Nat × Int))
    (restAfter : List Nat)
    (hfresh : ∀ p ∈ ess, fsExists fs0 p.1 = false)
    (hnodup : (ess.map Prod.fst).Nodup) :
    ∃ outs tss,
      decompressEssLoop d compress ess.length
        ⟨(List.zipWith essFrame ess ubs).flatten ++ restAfter, fs0, table0⟩ =
        .ok ⟨restAfter, fs0 ++ outs, tss ++ table0⟩ ∧
      List.Forall₂ (fun p out => out.1 = p.1 ∧
        ∃ r ub r2, ESS.decode d p.2 = .ok r ∧ r.get_uncompressed = some ub ∧
          ESS.decode d ub = .ok r2 ∧
          ESS.get_compressed compress r2 = some out.2) ess outs ∧
      tss.map Prod.fst = (ess.map (fun p => stem p.1)).reverse := by
  induction hf generalizing fs0 table0 with
  | nil =>
      exact ⟨[], [], by simp [decompressEssLoop], List.Forall₂.nil, by simp⟩
  | cons hp hrest ih =>
      rename_i p ub ess' ubs'
      obtain ⟨hn, hl, r, hdec, hu⟩ := hp
      have hdec2 := @ESS.roundtrip_stored _ d _ _ _ hdec hu
      obtain ⟨hB, hubeq⟩ := ESS.get_uncompressed_some_inv hu
      have hblob : r.uncompressedBlob.length < 2 ^ 32 := by
        have h1 : (r.screenshotData ++ r.uncompressedBlob).length ≤
            ub.length := by
          rw [hubeq]
          exact mkSaveInput_length_ge _ _ _ _ _ _ _ _ _ _ _ _ _ _ _ _
        simp only [List.length_append] at h1
        omega
      obtain ⟨enc, henc⟩ : ∃ enc, ESS.get_compressed compress { r with
          compressionType := 0
          uncompressedLen := none
          compressedLen := none } = some enc :=
        ⟨_, ESS.get_compressed_eq compress _ hB hblob (hcomp _ hblob)⟩
      obtain ⟨hnotin, hnodup'⟩ := List.nodup_cons.mp hnodup
      have hfreshp : fsExists fs0 p.1 = false := hfresh p (by simp)
      have hstep : decompressEssLoop d compress (ess'.length + 1)
          ⟨(List.zipWith essFrame (p :: ess') (ub :: ubs')).flatten ++
            restAfter, fs0, table0⟩ =
          decompressEssLoop d compress ess'.length
            ⟨(List.zipWith essFrame ess' ubs').flatten ++ restAfter,
              fs0 ++ [(p.1, enc)],
              (stem p.1, ESS.get_filetime_as_posix_seconds { r with
                compressionType := 0
                uncompressedLen := none
                compressedLen := none }) :: table0⟩ := by
        unfold decompressEssLoop
        have hstream : (List.zipWith essFrame (p :: ess')
            (ub :: ubs')).flatten ++ restAfter = wstrBytes p.1 ++
              (natToLE 4 ub.length ++ (ub ++
                ((List.zipWith essFrame ess' ubs').flatten ++
                  restAfter))) := by
          simp [essFrame, List.append_assoc]
        rw [hstream, read_wstring_append _ _ hn]
        simp only [hfreshp, Bool.false_eq_true, if_false,
          read_uint32_append _ _ hl, List.take_left, List.drop_left, hdec2,
          henc]
        rw [← decompressEssLoop.eq_def]
      have hfresh' : ∀ q ∈ ess',
          fsExists (fs0 ++ [(p.1, enc)]) q.1 = false := by
        intro q hq
        rw [fsExists_append, hfresh q (List.mem_cons_of_mem p hq),
          fsExists_single]
        have : p.1 ≠ q.1 := fun he =>
          hnotin (he ▸ List.mem_map_of_mem Prod.fst hq)
        simp [this]
      obtain ⟨outs, tss, hloop, hall, hstems⟩ :=
        ih (fs0 ++ [(p.1, enc)]) ((stem p.1,
          ESS.get_filetime_as_posix_seconds { r with
            compressionType := 0
            uncompressedLen := none
            compressedLen := none }) :: table0) hfresh' hnodup'
      refine ⟨(p.1, enc) :: outs, tss ++ [(stem p.1,
        ESS.get_filetime_as_posix_seconds { r with
          compressionType := 0
          uncompressedLen := none
          compressedLen := none })], ?_, ?_, ?_⟩
      · rw [List.length_cons, hstep, hloop]
        simp
      · exact List.Forall₂.cons ⟨rfl, r, ub, _, hdec, hu, hdec2, henc⟩ hall
      · simp [hstems]

theorem lookup_isSome_of_mem_keys {t : List (List Nat × Int)} {k : List Nat}
    (h : k ∈ t.map Prod.fst) : (t.lookup k).isSome := by
  induction t with
  | nil => simp at h
  | cons a t ih =>
      simp only [List.map_cons, List.mem_cons] at h
      rcases h with h | h
      · simp [List.lookup, h]
      · by_cases he : k = a.1
        · simp [List.lookup, he]
        · have : (k == a.1) = false := beq_eq_false_iff_ne.mpr he
          simp [List.lookup, this, ih h]

/-- Running the sidecar restore loop over framed sidecar entries whose
stems all occur in the table: every payload is written back verbatim under
its own name, in order, and the table is unchanged. -/
theorem decompressSkseLoop_run (skse : List (List Nat × List Nat))
    (fs0 : List (List Nat × List Nat)) (table0 : List (List Nat × Int))
    (restAfter : List Nat)
    (hok : ∀ p ∈ skse, p.1.length < 2 ^ 16 ∧ p.2.length < 2 ^ 32)
    (hfresh : ∀ p ∈ skse, fsExists fs0 p.1 = false)
    (hnodup : (skse.map Prod.fst).Nodup)
    (hstem : ∀ p ∈ skse, stem p.1 ∈ table0.map Prod.fst) :
    decompressSkseLoop skse.length
      ⟨(skse.map skseFrame).flatten ++ restAfter, fs0, table0⟩ =
      .ok ⟨restAfter, fs0 ++ skse, table0⟩ := by
  induction skse generalizing fs0 with
  | nil => simp [decompressSkseLoop]
  | cons p rest ih =>
      obtain ⟨hn, hl⟩ := hok p (by simp)
      obtain ⟨hnotin, hnodup'⟩ := List.nodup_cons.mp hnodup
      have hfreshp : fsExists fs0 p.1 = false := hfresh p (by simp)
      obtain ⟨ts, hts⟩ := Option.isSome_iff_exists.mp
        (lookup_isSome_of_mem_keys (hstem p (by simp)))
      have hstep : decompressSkseLoop (rest.length + 1)
          ⟨((p :: rest).map skseFrame).flatten ++ restAfter, fs0, table0⟩ =
          decompressSkseLoop rest.length
            ⟨(rest.map skseFrame).flatten ++ restAfter,
              fs0 ++ [(p.1, p.2)], table0⟩ := by
        unfold decompressSkseLoop
        have hstream : ((p :: rest).map skseFrame).flatten ++ restAfter =
            wstrBytes p.1 ++ (natToLE 4 p.2.length ++ (p.2 ++
              ((rest.map skseFrame).flatten ++ restAfter))) := by
          simp [skseFrame, List.append_assoc]
        rw [hstream, read_wstring_append _ _ hn]
        simp only [hfreshp, Bool.false_eq_true, if_false,
          read_uint32_append _ _ hl, List.take_left, List.drop_left, hts]
        rw [← decompressSkseLoop.eq_def]
      have hfresh' : ∀ q ∈ rest,
          fsExists (fs0 ++ [(p.1, p.2)]) q.1 = false := by
        intro q hq
        rw [fsExists_append, hfresh q (List.mem_cons_of_mem p hq),
          fsExists_single]
        have : p.1 ≠ q.1 := fun he =>
          hnotin (he ▸ List.mem_map_of_mem Prod.fst hq)
        simp [this]
      have hrec := ih (fs0 ++ [(p.1, p.2)])
        (fun q hq => hok q (List.mem_cons_of_mem p hq)) hfresh' hnodup'
        (fun q hq => hstem q (List.mem_cons_of_mem p hq))
      rw [List.length_cons, hstep, hrec]
      simp

theorem forall2_fst_eq {A : Type} {P : (List Nat × A) → (List Nat × A) → Prop}
    {xs ys : List (List Nat × A)}
    (h : List.Forall₂ (fun p out => out.1 = p.1 ∧ P p out) xs ys) :
    ys.map Prod.fst = xs.map Prod.fst := by
  induction h with
  | nil => rfl
  | cons hp _ ih => simp [ih, hp.1]

theorem fsExists_false_iff {l : List (List Nat × List Nat)} {nm : List Nat} :
    fsExists l nm = false ↔ nm ∉ l.map Prod.fst := by
  unfold fsExists
  rw [← Bool.not_eq_true, List.any_eq_true]
  simp only [decide_eq_true_eq, List.mem_map, not_exists]

/-- C2 (amended): creating an archive from any `essFiles` and `skseFiles`
and restoring it into an empty directory reproduces exactly
`essFiles.length + skseFiles.length` files with the original filenames in
the original order, where sidecar payloads are byte-identical and each ESS
file comes back as the canonical recompressed form
`get_compressed (decode (get_uncompressed (decode original)))`; and the
decompressed stream is the two u32 counts followed by that many entries per
category, each a u16-length-prefixed name, a u32 payload length, and
exactly that many payload bytes.  Requires: the create succeeded, all
filenames distinct, every sidecar stem matches some ESS stem (otherwise the
restore's stem-table lookup raises), and a compressor keeping sizes below
2^32. -/
theorem c2_archive_fidelity (d : List Nat → Nat → Option (List Nat))
    (compress : List Nat → List Nat) (ess skse : List (List Nat × List Nat))
    (stream : List Nat)
    (hcomp : ∀ x : List Nat, x.length < 2 ^ 32 → (compress x).length < 2 ^ 32)
    (hcreate : compress_files d ess skse = some stream)
    (hnodup : ((ess ++ skse).map Prod.fst).Nodup)
    (hstem : ∀ p ∈ skse, ∃ q ∈ ess, stem p.1 = stem q.1) :
    ∃ st : RState, decompress_files d compress stream [] = .ok st ∧
      st.fs.length = ess.length + skse.length ∧
      st.fs.drop ess.length = skse ∧
      List.Forall₂ (fun p out => out.1 = p.1 ∧
        ∃ r ub r2, ESS.decode d p.2 = .ok r ∧ r.get_uncompressed = some ub ∧
          ESS.decode d ub = .ok r2 ∧
          ESS.get_compressed compress r2 = some out.2)
        ess (st.fs.take ess.length) ∧
      ∃ ubs, List.Forall₂ (fun p ub => ∃ r, ESS.decode d p.2 = .ok r ∧
          r.get_uncompressed = some ub) ess ubs ∧
        stream = natToLE 4 ess.length ++ natToLE 4 skse.length ++
          (List.zipWith essFrame ess ubs).flatten ++
          (skse.map skseFrame).flatten := by
  obtain ⟨kE, kS, eb, sb, hjE, hjS, hstreameq⟩ :=
    compress_files_some_inv hcreate
  obtain ⟨ubs, hfall, hebeq⟩ := essChunks_layout hjE
  obtain ⟨hsok, hsbeq⟩ := skseChunks_layout hjS
  subst hebeq hsbeq hstreameq
  rw [List.map_append] at hnodup
  obtain ⟨hnodupE, hnodupS, hdisj⟩ := List.nodup_append.mp hnodup
  obtain ⟨outs, tss, hloopE, hallE, hstems⟩ :=
    decompressEssLoop_run hfall hcomp [] [] ((skse.map skseFrame).flatten)
      (by intro p hp; simp [fsExists]) hnodupE
  have houtfst : outs.map Prod.fst = ess.map Prod.fst := forall2_fst_eq hallE
  have hloopS := decompressSkseLoop_run skse ([] ++ outs) (tss ++ []) []
    hsok
    (by
      intro p hp
      rw [fsExists_false_iff]
      simp only [List.nil_append, houtfst]
      exact fun hm => hdisj hm (List.mem_map_of_mem Prod.fst hp))
    hnodupS
    (by
      intro p hp
      obtain ⟨q, hq, he⟩ := hstem p hp
      simp only [List.append_nil, hstems, List.mem_reverse]
      rw [he]
      exact List.mem_map_of_mem (fun x => stem x.1) hq)
  rw [List.append_nil] at hloopS
  have hrun : decompress_files d compress
      (natToLE 4 ess.length ++ natToLE 4 skse.length ++
        (List.zipWith essFrame ess ubs).flatten ++
        (skse.map skseFrame).flatten) [] =
      .ok ⟨[], ([] ++ outs) ++ skse, tss ++ []⟩ := by
    unfold decompress_files
    have hs1 : natToLE 4 ess.length ++ natToLE 4 skse.length ++
        (List.zipWith essFrame ess ubs).flatten ++
        (skse.map skseFrame).flatten =
        natToLE 4 ess.length ++ (natToLE 4 skse.length ++
          ((List.zipWith essFrame ess ubs).flatten ++
            (skse.map skseFrame).flatten)) := by
      simp [List.append_assoc]
    rw [hs1, read_uint32_append _ _ kE]
    simp only [read_uint32_append _ _ kS]
    simp only [hloopE, hloopS]
  refine ⟨⟨[], ([] ++ outs) ++ skse, tss ++ []⟩, hrun, ?_, ?_, ?_,
    ubs, List.Forall₂.imp (fun p ub h => h.2.2) hfall, rfl⟩
  · have := List.Forall₂.length_eq hallE
    simp [this]
  · have hlen := List.Forall₂.length_eq hallE
    simp only [List.nil_append]
    rw [hlen]
    exact List.drop_left outs skse
  · have hlen := List.Forall₂.length_eq hallE
    simp only [List.nil_append]
    rw [hlen, List.take_left]
    exact hallE

def RRes.isOk : RRes → Bool := fun x =>
  match x with
  | .ok _ => true
  | .err _ _ => false

/-- Witness ESS save file bytes: a STORED record with an empty screenshot
(width = height = 0) and payload `[42, 43]`. -/
def c2WitFile : List Nat :=
  mkSaveInput 1 12 2 [88] 3 [89] [90] [91] 1 [1, 2, 3, 4] [5, 6, 7, 8] 99 0 0
    0 [42, 43]

/-- Witness archive input: one ESS file named `a.ess` and one sidecar named
`a.skse` (matching stems). -/
def c2WitEss : List (List Nat × List Nat) :=
  [([97, 46, 101, 115, 115], c2WitFile)]

def c2WitSkse : List (List Nat × List Nat) :=
  [([97, 46, 115, 107, 115, 101], [9, 9])]

def c2WitStream : List Nat :=
  (compress_files idDecompress c2WitEss c2WitSkse).getD []

theorem c2_archive_fidelity_witness :
    ∃ st : RState,
      decompress_files idDecompress idCompress c2WitStream [] = .ok st ∧
      st.fs.length = c2WitEss.length + c2WitSkse.length ∧
      st.fs.drop c2WitEss.length = c2WitSkse ∧
      List.Forall₂ (fun p out => out.1 = p.1 ∧
        ∃ r ub r2, ESS.decode idDecompress p.2 = .ok r ∧
          r.get_uncompressed = some ub ∧
          ESS.decode idDecompress ub = .ok r2 ∧
          ESS.get_compressed idCompress r2 = some out.2)
        c2WitEss (st.fs.take c2WitEss.length) ∧
      ∃ ubs, List.Forall₂ (fun p ub => ∃ r,
          ESS.decode idDecompress p.2 = .ok r ∧
          r.get_uncompressed = some ub) c2WitEss ubs ∧
        c2WitStream = natToLE 4 c2WitEss.length ++
          natToLE 4 c2WitSkse.length ++
          (List.zipWith essFrame c2WitEss ubs).flatten ++
          (c2WitSkse.map skseFrame).flatten :=
  c2_archive_fidelity idDecompress idCompress c2WitEss c2WitSkse c2WitStream
    (fun x h => h) (by decide) (by decide) (by decide)

/-- Counterexample ESS file for C2 as literally stated: STORED on disk. -/
def c2CexFile : List Nat :=
  mkSaveInput 1 12 2 [88] 3 [89] [90] [91] 1 [1, 2, 3, 4] [5, 6, 7, 8] 99 0 0
    0 [42, 43]

def c2CexEss : List (List Nat × List Nat) :=
  [([97, 46, 101, 115, 115], c2CexFile)]

def c2CexStream : List Nat :=
  (compress_files idDecompress c2CexEss []).getD []

/-- C2 as stated is false: packing this one STORED save and restoring it
yields one file with the same name but different bytes — the restore
writes the record in canonical COMPRESSED form, not the original STORED
bytes. -/
theorem c2_archive_fidelity_cex :
    compress_files idDecompress c2CexEss [] = some c2CexStream ∧
    (decompress_files idDecompress idCompress c2CexStream []).isOk = true ∧
    ((decompress_files idDecompress idCompress
        c2CexStream []).state).fs.map Prod.fst = [[97, 46, 101, 115, 115]] ∧
    ((decompress_files idDecompress idCompress
        c2CexStream []).state).fs.map Prod.snd ≠ [c2CexFile] := by decide

/-- Inverting a successful ESS restore loop over arbitrary framed entries:
each entry's payload decoded successfully and was written back in
`get_compressed` form under the entry's own name, in order. -/
theorem decompressEssLoop_ok_inv {d : List Nat → Nat → Option (List Nat)}
    {compress : List Nat → List Nat} {es : List (List Nat × List Nat)}
    {fs0 : List (List Nat × List Nat)} {table0 : List (List Nat × Int)}
    {restAfter : List Nat} {st : RState}
    (hframe : ∀ p ∈ es, p.1.length < 2 ^ 16 ∧ p.2.length < 2 ^ 32)
    (h : decompressEssLoop d compress es.length
      ⟨(es.map skseFrame).flatten ++ restAfter, fs0, table0⟩ = .ok st) :
    ∃ outs, st.fs = fs0 ++ outs ∧
      List.Forall₂ (fun p out => out.1 = p.1 ∧
        ∃ r, ESS.decode d p.2 = .ok r ∧
          ESS.get_compressed compress r = some out.2) es outs := by
  induction es generalizing fs0 table0 st with
  | nil =>
      simp only [List.length_nil, decompressEssLoop] at h
      injection h with h
      exact ⟨[], by rw [← h]; simp, List.Forall₂.nil⟩
  | cons p rest ih =>
      obtain ⟨hn, hl⟩ := hframe p (by simp)
      rw [List.length_cons] at h
      unfold decompressEssLoop at h
      have hstream : ((p :: rest).map skseFrame).flatten ++ restAfter =
          wstrBytes p.1 ++ (natToLE 4 p.2.length ++ (p.2 ++
            ((rest.map skseFrame).flatten ++ restAfter))) := by
        simp [skseFrame, List.append_assoc]
      rw [hstream, read_wstring_append _ _ hn] at h
      simp only at h
      cases hex : fsExists fs0 p.1 with
      | true => rw [hex] at h; simp at h
      | false =>
          rw [hex] at h
          simp only [Bool.false_eq_true, if_false,
            read_uint32_append _ _ hl, List.take_left, List.drop_left] at h
          cases hdec : ESS.decode d p.2 with
          | error e => rw [hdec] at h; simp at h
          | ok r =>
              rw [hdec] at h
              simp only [hex, Bool.false_eq_true, if_false] at h
              cases henc : ESS.get_compressed compress r with
              | none => rw [henc] at h; simp at h
              | some enc =>
                  rw [henc] at h
                  obtain ⟨outs, hfs, hall⟩ :=
                    ih (fun q hq => hframe q (List.mem_cons_of_mem p hq)) h
                  refine ⟨(p.1, enc) :: outs, ?_,
                    List.Forall₂.cons ⟨rfl, r, hdec, henc⟩ hall⟩
                  rw [hfs]
                  simp

/-- C6: whatever the source file's representation, `compress_files` stores
`get_uncompressed (decode file)` as the ESS entry payload (tag 0, no size
fields), framed behind the header counts; and whenever the restore loop
succeeds on framed ESS entries, each written file holds
`get_compressed (decode payload)` (tag 2, fresh size fields) under the
entry's name. -/
theorem c6_canonical_forms (d : List Nat → Nat → Option (List Nat))
    (compress : List Nat → List Nat) :
    (∀ ess skse stream, compress_files d ess skse = some stream →
      ∃ ubs, List.Forall₂ (fun p ub => ∃ r, ESS.decode d p.2 = .ok r ∧
          r.get_uncompressed = some ub) ess ubs ∧
        stream = natToLE 4 ess.length ++ natToLE 4 skse.length ++
          (List.zipWith essFrame ess ubs).flatten ++
          (skse.map skseFrame).flatten) ∧
    (∀ es fs0 table0 restAfter st,
      (∀ p ∈ es, p.1.length < 2 ^ 16 ∧ p.2.length < 2 ^ 32) →
      decompressEssLoop d compress es.length
        ⟨(es.map skseFrame).flatten ++ restAfter, fs0, table0⟩ = .ok st →
      ∃ outs, st.fs = fs0 ++ outs ∧
        List.Forall₂ (fun p out => out.1 = p.1 ∧
          ∃ r, ESS.decode d p.2 = .ok r ∧
            ESS.get_compressed compress r = some out.2) es outs) := by
  constructor
  · intro ess skse stream hcreate
    obtain ⟨kE, kS, eb, sb, hjE, hjS, hstreameq⟩ :=
      compress_files_some_inv hcreate
    obtain ⟨ubs, hfall, hebeq⟩ := essChunks_layout hjE
    obtain ⟨hsok, hsbeq⟩ := skseChunks_layout hjS
    subst hebeq hsbeq hstreameq
    exact ⟨ubs, List.Forall₂.imp (fun p ub h => h.2.2) hfall, rfl⟩
  · intro es fs0 table0 restAfter st hframe hloop
    exact decompressEssLoop_ok_inv hframe hloop

/-- One framed ESS entry for the C6 witness: name `[110]`, payload equal to
the STORED save bytes `c2WitFile`. -/
def c6WitEntries : List (List Nat × List Nat) := [([110], c2WitFile)]

def c6WitSt : RState :=
  (decompressEssLoop idDecompress idCompress c6WitEntries.length
    ⟨(c6WitEntries.map skseFrame).flatten ++ [], [], []⟩).state

theorem c6_canonical_forms_witness :
    (∃ ubs, List.Forall₂ (fun p ub => ∃ r,
        ESS.decode idDecompress p.2 = .ok r ∧
        r.get_uncompressed = some ub) c2WitEss ubs ∧
      c2WitStream = natToLE 4 c2WitEss.length ++
        natToLE 4 c2WitSkse.length ++
        (List.zipWith essFrame c2WitEss ubs).flatten ++
        (c2WitSkse.map skseFrame).flatten) ∧
    (∃ outs, c6WitSt.fs = [] ++ outs ∧
      List.Forall₂ (fun p out => out.1 = p.1 ∧
        ∃ r, ESS.decode idDecompress p.2 = .ok r ∧
          ESS.get_compressed idCompress r = some out.2) c6WitEntries outs) :=
  ⟨(c6_canonical_forms idDecompress idCompress).1 c2WitEss c2WitSkse
      c2WitStream (by decide),
   (c6_canonical_forms idDecompress idCompress).2 c6WitEntries [] [] []
      c6WitSt (by decide) (by decide)⟩

theorem lookup_append_left {fs0 suffix : List (List Nat × List Nat)}
    {nm v : List Nat} (h : fs0.lookup nm = some v) :
    (fs0 ++ suffix).lookup nm = some v := by
  induction fs0 with
  | nil => simp [List.lookup] at h
  | cons a t ih =>
      obtain ⟨k, b⟩ := a
      cases hb : (nm == k) with
      | true => simp only [List.lookup, hb] at h ⊢; exact h
      | false => simp only [List.lookup, hb] at h ⊢; exact ih h

theorem decompressEssLoop_fs_extends
    (d : List Nat → Nat → Option (List Nat))
    (compress : List Nat → List Nat) :
    ∀ n st, ∃ suffix,
      (RRes.state (decompressEssLoop d compress n st)).fs = st.fs ++ suffix := by
  intro n
  induction n with
  | zero => exact fun st => ⟨[], by simp [decompressEssLoop, RRes.state]⟩
  | succ n ih =>
      intro st
      unfold decompressEssLoop
      cases hw : read_wstring st.stream with
      | none => exact ⟨[], by simp [RRes.state]⟩
      | some pr =>
          obtain ⟨nm, s1⟩ := pr
          by_cases hex : fsExists st.fs nm = true
          · exact ⟨[], by simp [hex, RRes.state]⟩
          · have hex' : fsExists st.fs nm = false := by simpa using hex
            cases h32 : read_uint32 s1 with
            | none => exact ⟨[], by simp [hex', h32, RRes.state]⟩
            | some pr2 =>
                obtain ⟨fz, s2⟩ := pr2
                cases hdec : ESS.decode d (s2.take fz) with
                | error e =>
                    exact ⟨[], by simp [hex', h32, hdec, RRes.state]⟩
                | ok r =>
                    cases henc : ESS.get_compressed compress r with
                    | none =>
                        exact ⟨[], by simp [hex', h32, hdec, henc, RRes.state]⟩
                    | some enc =>
                        obtain ⟨suf, hsuf⟩ := ih ⟨s2.drop fz,
                          st.fs ++ [(nm, enc)],
                          (stem nm, r.get_filetime_as_posix_seconds) ::
                            st.table⟩
                        refine ⟨(nm, enc) :: suf, ?_⟩
                        simp only [hex', Bool.false_eq_true, if_false, h32,
                          hdec, henc]
                        rw [hsuf]
                        simp

theorem decompressSkseLoop_fs_extends :
    ∀ n st, ∃ suffix,
      (RRes.state (decompressSkseLoop n st)).fs = st.fs ++ suffix := by
  intro n
  induction n with
  | zero => exact fun st => ⟨[], by simp [decompressSkseLoop, RRes.state]⟩
  | succ n ih =>
      intro st
      unfold decompressSkseLoop
      cases hw : read_wstring st.stream with
      | none => exact ⟨[], by simp [RRes.state]⟩
      | some pr =>
          obtain ⟨nm, s1⟩ := pr
          by_cases hex : fsExists st.fs nm = true
          · exact ⟨[], by simp [hex, RRes.state]⟩
          · have hex' : fsExists st.fs nm = false := by simpa using hex
            cases h32 : read_uint32 s1 with
            | none => exact ⟨[], by simp [hex', h32, RRes.state]⟩
            | some pr2 =>
                obtain ⟨fz, s2⟩ := pr2
                cases hlk : st.table.lookup (stem nm) with
                | none =>
                    exact ⟨[(nm, s2.take fz)],
                      by simp [hex', h32, hlk, RRes.state]⟩
                | some ts =>
                    obtain ⟨suf, hsuf⟩ := ih ⟨s2.drop fz,
                      st.fs ++ [(nm, s2.take fz)], st.table⟩
                    refine ⟨(nm, s2.take fz) :: suf, ?_⟩
                    simp only [hex', Bool.false_eq_true, if_false, h32, hlk]
                    rw [hsuf]
                    simp

theorem decompress_files_fs_extends
    (d : List Nat → Nat → Option (List Nat))
    (compress : List Nat → List Nat) (archive : List Nat)
    (fs0 : List (List Nat × List Nat)) :
    ∃ suffix,
      (RRes.state (decompress_files d compress archive fs0)).fs =
        fs0 ++ suffix := by
  unfold decompress_files
  cases h1 : read_uint32 archive with
  | none => exact ⟨[], by simp [RRes.state]⟩
  | some pr1 =>
      obtain ⟨nE, s1⟩ := pr1
      cases h2 : read_uint32 s1 with
      | none => exact ⟨[], by simp [h2, RRes.state]⟩
      | some pr2 =>
          obtain ⟨nS, s2⟩ := pr2
          obtain ⟨suf1, hsuf1⟩ :=
            decompressEssLoop_fs_extends d compress nE ⟨s2, fs0, []⟩
          cases hE : decompressEssLoop d compress nE ⟨s2, fs0, []⟩ with
          | err e st1 =>
              refine ⟨suf1, ?_⟩
              rw [hE] at hsuf1
              simp only [h2, hE]
              exact hsuf1
          | ok st1 =>
              rw [hE] at hsuf1
              obtain ⟨suf2, hsuf2⟩ := decompressSkseLoop_fs_extends nS st1
              refine ⟨suf1 ++ suf2, ?_⟩
              simp only [h2, hE]
              rw [hsuf2]
              simp only [RRes.state] at hsuf1
              rw [hsuf1, List.append_assoc]

/-- C7: a restore run only ever appends new files — every pre-existing
(filename, contents) pair still resolves identically afterwards, whether
the run succeeded or aborted — and the moment an entry's destination name
already exists (ESS or sidecar loop alike), the run stops with the
already-exists error, with the directory exactly as it was before that
entry (the name check precedes the size read, payload read, and write). -/
theorem c7_overwrite_guard (d : List Nat → Nat → Option (List Nat))
    (compress : List Nat → List Nat) :
    (∀ archive fs0, ∃ suffix,
      (RRes.state (decompress_files d compress archive fs0)).fs =
        fs0 ++ suffix ∧
      ∀ nm v, fs0.lookup nm = some v →
        ((RRes.state (decompress_files d compress archive fs0)).fs).lookup
          nm = some v) ∧
    (∀ n st nm s1, read_wstring st.stream = some (nm, s1) →
      fsExists st.fs nm = true →
      decompressEssLoop d compress (n + 1) st =
        .err .alreadyExists ⟨s1, st.fs, st.table⟩) ∧
    (∀ n st nm s1, read_wstring st.stream = some (nm, s1) →
      fsExists st.fs nm = true →
      decompressSkseLoop (n + 1) st =
        .err .alreadyExists ⟨s1, st.fs, st.table⟩) := by
  refine ⟨?_, ?_, ?_⟩
  · intro archive fs0
    obtain ⟨suffix, hsuf⟩ := decompress_files_fs_extends d compress archive fs0
    exact ⟨suffix, hsuf, fun nm v hv => by rw [hsuf]; exact lookup_append_left hv⟩
  · intro n st nm s1 hr hex
    unfold decompressEssLoop
    simp [hr, hex]
  · intro n st nm s1 hr hex
    unfold decompressSkseLoop
    simp [hr, hex]

theorem c7_overwrite_guard_witness :
    (∃ suffix,
      (RRes.state (decompress_files idDecompress idCompress [9, 9]
        [([65], [7])])).fs = [([65], [7])] ++ suffix ∧
      ∀ nm v, ([([65], [7])] : List (List Nat × List Nat)).lookup nm =
          some v →
        ((RRes.state (decompress_files idDecompress idCompress [9, 9]
          [([65], [7])])).fs).lookup nm = some v) ∧
    decompressEssLoop idDecompress idCompress 1
      ⟨wstrBytes [65] ++ [1, 2], [([65], [7])], []⟩ =
      .err .alreadyExists ⟨[1, 2], [([65], [7])], []⟩ ∧
    decompressSkseLoop 1
      ⟨wstrBytes [65] ++ [1, 2], [([65], [7])], []⟩ =
      .err .alreadyExists ⟨[1, 2], [([65], [7])], []⟩ :=
  ⟨(c7_overwrite_guard idDecompress idCompress).1 [9, 9] [([65], [7])],
   (c7_overwrite_guard idDecompress idCompress).2.1 0
     ⟨wstrBytes [65] ++ [1, 2], [([65], [7])], []⟩ [65] [1, 2] (by decide)
     (by decide),
   (c7_overwrite_guard idDecompress idCompress).2.2 0
     ⟨wstrBytes [65] ++ [1, 2], [([65], [7])], []⟩ [65] [1, 2] (by decide)
     (by decide)⟩
